import Mathlib

/-!
A shallow embedding of the graph engine of `src/MindMapr/main.py`:
the node/edge data model held by `MindMapCanvas` (`nodes`, `edges`,
per-node `connections` sets), the mutating operations
(`finish_connection`, `delete_node`, `delete_edge`, `on_drag`),
serialization (`Node.serialize`, `Edge.serialize`,
`MindMapCanvas.serialize`) and deserialization
(`MindMapCanvas.load_from`), the connect-mode event handling
(`Node.on_click` plus `MindMapCanvas.finish_connection` as dispatched
by the toolkit), and the per-account document store
(`save_map`, `delete_selected_map`, `refresh_maps_list`,
`save_map_file`, `delete_map_file`).

Canvas-only state (rectangle/line item ids, rendered coordinates) is
presentation and is not part of the model; uuid generation is modelled
by an explicit supply of fresh identifier strings.
-/

namespace MindMapr

/-- The model state of a `Node` (main.py `Node.__init__`): position,
size (defaults 160×52), text, stable id, and the `connections` set of
incident edge ids (a Python `set`, hence a `Finset`). Coordinates are
rationals since Python arithmetic on them uses `/ 2`. -/
structure NodeV where
  id : String
  x : Rat
  y : Rat
  width : Rat
  height : Rat
  text : String
  connections : Finset String
  deriving DecidableEq

/-- The model state of an `Edge` (main.py `Edge.__init__`): its id and
the ids of its two endpoint nodes (the Python object holds the node
objects; the diagram-level content is their ids, which is what
`Edge.serialize` emits). -/
structure EdgeV where
  id : String
  a : String
  b : String
  deriving DecidableEq

/-- The graph state of a `MindMapCanvas`: the `nodes` and `edges`
dicts, both keyed by the element's own id and kept in insertion order
(Python dict semantics). -/
structure Diagram where
  nodes : List NodeV
  edges : List EdgeV
  deriving DecidableEq

/-- Lookup in the `nodes` dict (`self.nodes.get(nid)` / `id_map.get`). -/
def getNode (d : Diagram) (nid : String) : Option NodeV :=
  d.nodes.find? (fun n => n.id = nid)

/-- Lookup in the `edges` dict (`self.edges.get(eid)`). -/
def getEdge (d : Diagram) (eid : String) : Option EdgeV :=
  d.edges.find? (fun e => e.id = eid)

/-- Python dict assignment `self.nodes[n.id] = n`: replace the entry
with the same key in place, otherwise append. -/
def insertNode : List NodeV → NodeV → List NodeV
  | [], n => [n]
  | m :: rest, n => if m.id = n.id then n :: rest else m :: insertNode rest n

/-- Python dict assignment `self.edges[e.id] = e`. -/
def insertEdge : List EdgeV → EdgeV → List EdgeV
  | [], e => [e]
  | f :: rest, e => if f.id = e.id then e :: rest else f :: insertEdge rest e

/-- The effect of constructing `Edge(self, a, b, eid)` and storing it
(`self.edges[e.id] = e`) when BOTH endpoint objects are nodes held in
the dict — the situation on the `load_from` path, where `a` and `b`
are resolved from `id_map`. `Edge.__init__` adds the edge id to both
endpoints' `connections` sets; a self-loop adds the id to the one set
twice, which is idempotent, exactly as for a Python set. (For
`finish_connection`, whose source object need not be in the dict, see
`addEdgeFC`.) -/
def addEdgeRaw (d : Diagram) (eid aId bId : String) : Diagram :=
  { nodes := d.nodes.map (fun n =>
      if n.id = aId ∨ n.id = bId then { n with connections := insert eid n.connections } else n),
    edges := insertEdge d.edges ⟨eid, aId, bId⟩ }

/-- The effect of `Edge(self, self.selected_item, target)` plus
`self.edges[e.id] = e` in `finish_connection`. `Edge.__init__` adds
the edge id to both endpoint OBJECTS' `connections` sets: the target
is always the node stored in the dict (it is resolved from
`self.nodes.values()`), but the source is `self.selected_item`, which
need not be — `sourceCurrent` says whether it is the dict's node for
its id. When the selection is stale, the id lands in the stale
object's set, invisible to the diagram, so only the target's dict
node is updated. -/
def addEdgeFC (d : Diagram) (eid sourceId : String) (sourceCurrent : Bool)
    (targetId : String) : Diagram :=
  { nodes := d.nodes.map (fun n =>
      if n.id = targetId ∨ (sourceCurrent = true ∧ n.id = sourceId) then
        { n with connections := insert eid n.connections } else n),
    edges := insertEdge d.edges ⟨eid, sourceId, targetId⟩ }

/-- `MindMapCanvas.finish_connection`, at the level of the graph
state: `sourceId` is the id of `self.selected_item` (never looked up
in `nodes` by the code) and `sourceCurrent` says whether that object
is the node currently stored in the dict under its id — false for a
stale selection, reachable because `clear()`/`load_from` never reset
`selected_item`. The clicked target is resolved by scanning
`self.nodes`, so it resolves exactly when `targetId` is a key and is
always the dict's object. The guard
`if target and target != self.selected_item` compares OBJECT
IDENTITY: target and selection are the same object exactly when the
ids match and the selection is current. Returns the new state and the
created edge id, `none` on the abort path (which mutates no graph
state). `eid` stands for the fresh `uuid4` edge id. -/
def finish_connection (d : Diagram) (sourceId : String) (sourceCurrent : Bool)
    (targetId eid : String) : Diagram × Option String :=
  match getNode d targetId with
  | some _ =>
    if targetId = sourceId ∧ sourceCurrent = true then (d, none)
    else (addEdgeFC d eid sourceId sourceCurrent targetId, some eid)
  | none => (d, none)

/-- `MindMapCanvas.delete_edge`: if the id is present, discard it from
both endpoints' `connections` sets and delete the edge; otherwise do
nothing. -/
def delete_edge (d : Diagram) (eid : String) : Diagram :=
  match getEdge d eid with
  | none => d
  | some e =>
    { nodes := d.nodes.map (fun n =>
        if n.id = e.a ∨ n.id = e.b then { n with connections := n.connections.erase eid } else n),
      edges := d.edges.filter (fun f => f.id ≠ eid) }

/-- The snapshot `list(node.connections)` taken by `delete_node`:
the elements of the set in some duplicate-free order (a Python set
iterates in unspecified order; we fix the sorted one). -/
def connList (s : Finset String) : List String :=
  s.sort (fun u v => u ≤ v)

/-- `MindMapCanvas.delete_node`: the handlers pass `self.selected_item`,
a node OBJECT that need not be the node the diagram currently stores
under its id (a stale selection survives `load_from`/`clear`, which
never reset `selected_item`). The code iterates a snapshot of the
PASSED object's `connections` (`for eid in list(node.connections)`),
deleting those edge ids from the dict, and then removes the dict
entry under the object's id when present (`if node.id in self.nodes`,
which the final filter realizes). The model therefore takes the
passed object's id and `connections` set explicitly. -/
def delete_node (d : Diagram) (nid : String) (conns : Finset String) : Diagram :=
  let d1 := (connList conns).foldl delete_edge d
  { d1 with nodes := d1.nodes.filter (fun m => m.id ≠ nid) }

/-- `Node.on_drag`: the node's position becomes
`(event.x - width/2, event.y - height/2)`; the loop over
`self.connections` only re-renders edge geometry (`update_edge`) and
touches no graph state. -/
def on_drag (d : Diagram) (nid : String) (ex ey : Rat) : Diagram :=
  { d with nodes := d.nodes.map (fun n =>
      if n.id = nid then { n with x := ex - n.width / 2, y := ey - n.height / 2 } else n) }

/-- One serialized node entry: the keys of `Node.serialize`, each
`Option` because `load_from` reads them with `dict.get` defaults. -/
structure DocNode where
  id : Option String
  x : Option Rat
  y : Option Rat
  text : Option String
  width : Option Rat
  height : Option Rat
  deriving DecidableEq

/-- One serialized edge entry (`Edge.serialize`). -/
structure DocEdge where
  id : Option String
  a : Option String
  b : Option String
  deriving DecidableEq

/-- A persisted diagram document (`MindMapCanvas.serialize` shape). -/
structure Document where
  nodes : List DocNode
  edges : List DocEdge
  deriving DecidableEq

/-- `Node.serialize`. -/
def NodeV.toDoc (n : NodeV) : DocNode :=
  ⟨some n.id, some n.x, some n.y, some n.text, some n.width, some n.height⟩

/-- `Edge.serialize` (`a` and `b` are the endpoint node objects'
ids). -/
def EdgeV.toDoc (e : EdgeV) : DocEdge :=
  ⟨some e.id, some e.a, some e.b⟩

/-- `MindMapCanvas.serialize`: the node and edge dicts' values in
order. -/
def Diagram.serialize (d : Diagram) : Document :=
  ⟨d.nodes.map NodeV.toDoc, d.edges.map EdgeV.toDoc⟩

/-- A node with its `connections` set emptied: rebuilding a node from
its serialized form starts from a fresh empty set. -/
def stripConns (n : NodeV) : NodeV := { n with connections := ∅ }

/-- Every edge of the diagram has both endpoint ids present among the
nodes. -/
def edgeEndpointsPresent (d : Diagram) : Prop :=
  ∀ e ∈ d.edges, (∃ n ∈ d.nodes, n.id = e.a) ∧ (∃ n ∈ d.nodes, n.id = e.b)

instance (d : Diagram) : Decidable (edgeEndpointsPresent d) := by
  unfold edgeEndpointsPresent; infer_instance

/-- `nid or str(uuid.uuid4())` (and the same pattern for edge ids):
a missing or empty (falsy) id is replaced by the next fresh id from
the supply; the counter advances only when a fresh id is consumed. -/
def freshId (given : Option String) (supply : Nat → String) (k : Nat) : String × Nat :=
  match given with
  | none => (supply k, k + 1)
  | some s => if s = "" then (supply k, k + 1) else (s, k)

/-- Rebuilding one node in `load_from`:
`Node(self, nd.get("x", 10), nd.get("y", 10), text=nd.get("text", "New Node"), nid=nd.get("id"))`
followed by the `width`/`height` overrides with the constructor's
defaults 160/52 as fallback; a fresh `connections` set. -/
def loadNode (supply : Nat → String) (k : Nat) (nd : DocNode) : NodeV × Nat :=
  let p := freshId nd.id supply k
  ({ id := p.1, x := nd.x.getD 10, y := nd.y.getD 10,
     width := nd.width.getD 160, height := nd.height.getD 52,
     text := nd.text.getD "New Node", connections := ∅ }, p.2)

/-- The node-rebuilding loop of `load_from`: every entry constructs a
`Node`; the list of constructed nodes in order, with the fresh-id
counter threaded through. -/
def loadNodes (supply : Nat → String) (k : Nat) : List DocNode → List NodeV × Nat
  | [] => ([], k)
  | nd :: rest =>
    let p := loadNode supply k nd
    let q := loadNodes supply p.2 rest
    (p.1 :: q.1, q.2)

/-- One step of the edge-rebuilding loop of `load_from`:
`a = id_map.get(ed.get("a")); b = id_map.get(ed.get("b")); if a and b:`
create and store the edge (consuming a fresh id only when the entry's
id is falsy), else skip the entry. `id_map` and `self.nodes` receive
identical assignments, so both are the diagram's node dict. -/
def loadEdge (supply : Nat → String) (st : Diagram × Nat) (ed : DocEdge) : Diagram × Nat :=
  match ed.a.bind (getNode st.1), ed.b.bind (getNode st.1) with
  | some na, some nb =>
    let p := freshId ed.id supply st.2
    (addEdgeRaw st.1 p.1 na.id nb.id, p.2)
  | _, _ => st

/-- `MindMapCanvas.load_from`: clear the canvas, rebuild nodes first
(dict assignments in entry order), then rebuild edges, skipping any
entry whose endpoints do not resolve in the node dict. Total: no
document is rejected. -/
def load_from (supply : Nat → String) (doc : Document) : Diagram :=
  let created := loadNodes supply 0 doc.nodes
  let d0 : Diagram := { nodes := created.1.foldl insertNode [], edges := [] }
  (doc.edges.foldl (loadEdge supply) (d0, created.2)).1

/-- The log messages emitted while loading a document: `load_from`,
`Node.__init__` and `Edge.__init__` contain no `app.log` call, so the
load path emits none — in particular nothing when an edge entry is
skipped for an unresolvable endpoint. -/
def load_from_msgs (_supply : Nat → String) (_doc : Document) : List String := []

/-! ## Interaction state machine (canvas events) -/

/-- The interaction-relevant state of `MindMapCanvas`: the graph, the
current selection (`selected_item`, carried as the selected object's
id together with `selectedCurrent`, whether that object is the node
the dict currently stores under that id — false for a stale selection
surviving `load_from`/`clear`), whether a provisional `temp_line`
exists, and whether connect mode is active (Button-1 bound to
`finish_connection` and Motion bound to `follow_mouse`). -/
structure Canvas where
  d : Diagram
  selected : Option String
  selectedCurrent : Bool
  tempLine : Bool
  connecting : Bool
  deriving DecidableEq

/-- `Node.on_click` (item-level Button-1 binding): fires when the
clicked node's rectangle or text is the canvas's current (topmost)
item — the ordinary Idle-state selection click. It selects the clicked
node (a dict object, so the selection becomes current) and discards
any provisional `temp_line`. -/
def node_on_click (c : Canvas) (nid : String) : Canvas :=
  { c with selected := some nid, selectedCurrent := true, tempLine := false }

/-- `MindMapCanvas.finish_connection` as the widget-level Button-1
handler in connect mode: resolve a target at the click point among the
nodes (`target?` is the `find_overlapping` hit-test result, a key of
`d.nodes` when present); if one is found and is not the very object
selected (object identity: same id AND current selection), create the
edge; either way discard the provisional line, unbind Motion and
rebind Button-1 (leaving connect mode). `eid` is the fresh edge id. -/
def finish_connection_ev (c : Canvas) (target? : Option String) (eid : String) : Canvas :=
  match target?, c.selected with
  | some t, some s =>
    if t = s ∧ c.selectedCurrent = true then
      { c with tempLine := false, connecting := false }
    else
      { c with
          d := addEdgeFC c.d eid s c.selectedCurrent t
          tempLine := false
          connecting := false }
  | _, _ => { c with tempLine := false, connecting := false }

/-- Clicking on a node while in connect mode with the provisional line
following the pointer. The dashed `temp_line` is redrawn by
`follow_mouse` to end exactly at the pointer, so at the click it is
the canvas's topmost "current" item; item-level `tag_bind` handlers
(`Node.on_click`) fire only for the current item and therefore do NOT
fire — only the widget-level Button-1 binding (`finish_connection`)
runs, and its `find_overlapping` hit test resolves the node beneath
the line. The selection is untouched by the click itself. -/
def click_node_while_connecting (c : Canvas) (nid : String) (eid : String) : Canvas :=
  finish_connection_ev c (some nid) eid

/-! ## Per-account document store -/

/-- One metadata index entry (`maps_index.json` value): a free-form
dict read with `get` defaults, modelled by optional fields. -/
structure MapMeta where
  title : Option String
  created : Option String
  modified : Option String
  deriving DecidableEq

/-- Generic lookup in a string-keyed Python dict kept in insertion
order. -/
def dget {α : Type} (m : List (String × α)) (k : String) : Option α :=
  match m with
  | [] => none
  | p :: rest => if p.1 = k then some p.2 else dget rest k

/-- Generic dict assignment `m[k] = v`. -/
def dinsert {α : Type} (m : List (String × α)) (k : String) (v : α) : List (String × α) :=
  match m with
  | [] => [(k, v)]
  | p :: rest => if p.1 = k then (k, v) :: rest else p :: dinsert rest k v

/-- Generic dict deletion `del m[k]` (keys are unique, so filtering
the one key out is the removal of its entry). -/
def derase {α : Type} (m : List (String × α)) (k : String) : List (String × α) :=
  m.filter (fun p => p.1 ≠ k)

/-- One account's durable state: the map bodies (one JSON file per id
under `maps/`) and the metadata index (`maps_index.json`). -/
structure UserStore where
  bodies : List (String × Document)
  index : List (String × MapMeta)
  deriving DecidableEq

/-- A store write performed by a save, in order. -/
inductive WriteEv where
  | body (id : String)
  | index (id : String)
  deriving DecidableEq

/-- `save_map_file`: write the body file for the id (replacing any
previous content). -/
def save_map_file (s : UserStore) (mid : String) (doc : Document) : UserStore :=
  { s with bodies := dinsert s.bodies mid doc }

/-- `delete_map_file`: remove the body file if it exists (no-op
otherwise). -/
def delete_map_file (s : UserStore) (mid : String) : UserStore :=
  if (dget s.bodies mid).isSome then { s with bodies := derase s.bodies mid } else s

/-- The session state of `MindMapApp` that the save/delete paths
read: the logged-in user (presence only; the store is that user's),
`current_map_id`, `current_map_meta`, and the user's store. -/
structure AppState where
  loggedIn : Bool
  currentMapId : Option String
  currentMapMeta : Option MapMeta
  store : UserStore
  deriving DecidableEq

/-- The tail of `MindMapApp.save_map` once a map id is fixed: write
the body (`save_map_file`), then take `meta = self.current_map_meta or {}`,
set `modified` to now, set `created` only if `meta` lacks it, store
the entry in the index and write the index. Returns the new state and
the write trace. The in-memory meta dict is mutated in place, so
`current_map_meta` sees the updates exactly when it was non-None. -/
def save_core (st : AppState) (doc : Document) (now mid : String) :
    AppState × List WriteEv :=
  let s1 := save_map_file st.store mid doc
  let meta0 := st.currentMapMeta.getD ⟨none, none, none⟩
  let meta1 := { meta0 with modified := some now }
  let meta2 := if meta1.created = none then { meta1 with created := some now } else meta1
  let s2 := { s1 with index := dinsert s1.index mid meta2 }
  let cmm : Option MapMeta :=
    match st.currentMapMeta with
    | some _ => some meta2
    | none => none
  ({ st with
      store := s2
      currentMapId := some mid
      currentMapMeta := cmm },
   [WriteEv.body mid, WriteEv.index mid])

/-- `MindMapApp.save_map`: abort when not logged in; when there is no
current map id, prompt for a title (`titlePrompt`, `none` = cancel,
aborting), allocate a fresh id and fresh metadata with `created` and
`modified` both now; then run the common save tail. An abort performs
no store write (empty trace). -/
def save_map (st : AppState) (doc : Document) (now freshMid : String)
    (titlePrompt : Option String) : AppState × List WriteEv :=
  if st.loggedIn = false then (st, [])
  else
    match st.currentMapId with
    | some mid => save_core st doc now mid
    | none =>
      match titlePrompt with
      | none => (st, [])
      | some t =>
        save_core
          { st with
              currentMapId := some freshMid
              currentMapMeta := some ⟨some t, some now, some now⟩ }
          doc now freshMid

/-- `MindMapApp.delete_selected_map` on a confirmed selection `mid`:
remove the body file, then remove the index entry when present (the
index file is rewritten only in that case). -/
def delete_selected_map (s : UserStore) (mid : String) : UserStore :=
  let s1 := delete_map_file s mid
  if (dget s1.index mid).isSome then { s1 with index := derase s1.index mid } else s1

/-- The `created` value a save stores in the index entry, read off the
save path of `MindMapApp.save_map`: it comes from the in-memory
`current_map_meta` when that holds one (`if "created" not in meta`),
and is the current timestamp otherwise — on the first-save path fresh
metadata stamped `now` is installed first. The durable index entry is
never consulted. -/
def savedCreated (st : AppState) (now : String) : String :=
  match st.currentMapId, st.currentMapMeta with
  | none, _ => now
  | some _, none => now
  | some _, some m0 => m0.created.getD now

/-- Insert one entry into a list sorted by `modified` descending. -/
def insDesc (p : String × MapMeta) : List (String × MapMeta) → List (String × MapMeta)
  | [] => [p]
  | q :: rest =>
    if (q.2.modified.getD "") ≤ (p.2.modified.getD "") then p :: q :: rest
    else q :: insDesc p rest

/-- The listing order of `refresh_maps_list`:
`sorted(idx.items(), key=lambda kv: kv[1].get("modified", ""), reverse=True)`. -/
def listDiagrams (s : UserStore) : List (String × MapMeta) :=
  s.index.foldr insDesc []

/-! ## Representation invariant of canvas-reachable graph states -/

/-- The representation invariant of a `MindMapCanvas` graph state:
the two dicts are keyed by the elements' own ids (so ids are unique),
all ids are non-empty (they are `uuid4` strings or truthy loaded ids —
`nid or str(uuid.uuid4())` never stores a falsy id), every edge's
endpoints are present in `nodes`, and each node's `connections` set is
exactly the set of ids of edges incident to it. -/
def Wf (d : Diagram) : Prop :=
  (d.nodes.map (fun n => n.id)).Nodup ∧
  (d.edges.map (fun e => e.id)).Nodup ∧
  (∀ n ∈ d.nodes, n.id ≠ "") ∧
  (∀ e ∈ d.edges, e.id ≠ "" ∧ (∃ n ∈ d.nodes, n.id = e.a) ∧ (∃ n ∈ d.nodes, n.id = e.b)) ∧
  (∀ n ∈ d.nodes, ∀ e ∈ d.edges, (e.a = n.id ∨ e.b = n.id) → e.id ∈ n.connections) ∧
  (∀ n ∈ d.nodes, ∀ eid ∈ n.connections, ∃ e ∈ d.edges, e.id = eid ∧ (e.a = n.id ∨ e.b = n.id))

instance (d : Diagram) : Decidable (Wf d) := by
  unfold Wf; infer_instance

/-- The key list of the node dict. -/
def nodeIds (d : Diagram) : List String := d.nodes.map (fun n => n.id)

/-- The key list of the edge dict. -/
def edgeIds (d : Diagram) : List String := d.edges.map (fun e => e.id)

/-- The `connections` set of the node stored at key `i` (empty when no
such node exists). -/
def connsOf (d : Diagram) (i : String) : Finset String :=
  match getNode d i with
  | some n => n.connections
  | none => ∅

/-! ## Concrete fixtures -/

/-- A concrete node, as created at position (10, 10). -/
def nodeA : NodeV :=
  { id := "A", x := 10, y := 10, width := 160, height := 52,
    text := "New Node", connections := ∅ }

/-- A concrete node, as created at position (200, 10). -/
def nodeB : NodeV :=
  { id := "B", x := 200, y := 10, width := 160, height := 52,
    text := "New Node", connections := ∅ }

/-- A two-node diagram with no edges. -/
def dAB : Diagram := ⟨[nodeA, nodeB], []⟩

/-- The two-node diagram after connecting A to B with edge `e1`. -/
def dABe : Diagram := addEdgeRaw dAB "e1" "A" "B"

/-- A one-node diagram containing only B. -/
def dB : Diagram := ⟨[nodeB], []⟩

/-- A document whose single edge is a self-loop on its single node. -/
def docLoop : Document :=
  ⟨[⟨some "n1", some 10, some 10, some "New Node", some 160, some 52⟩],
   [⟨some "e1", some "n1", some "n1"⟩]⟩

/-- A document with one node and one edge whose `b` endpoint names a
node absent from the node list. -/
def docDangling : Document :=
  ⟨[⟨some "n1", some 10, some 10, some "New Node", some 160, some 52⟩],
   [⟨some "e1", some "n1", some "missing"⟩]⟩

/-- A fixed id supply for concrete evaluations. -/
def supply0 : Nat → String := fun k => "fresh" ++ toString k

/-- A canvas in connect mode: A and B on it, A selected as the source
(a current, non-stale selection), a provisional line on screen. -/
def canvasAB : Canvas :=
  { d := dAB, selected := some "A", selectedCurrent := true,
    tempLine := true, connecting := true }

/-- The node stored under id A in `dABe` (A with edge e1 incident). -/
def nodeAconn : NodeV := { nodeA with connections := insert "e1" ∅ }

/-- A document with one node entry that has every field missing. -/
def docDefaults : Document := ⟨[⟨none, none, none, none, none, none⟩], []⟩

/-- The node `load_from` builds from a fully-defaulted entry (fresh id
from the supply, position (10, 10), placeholder text, size 160×52). -/
def nodeD0 : NodeV :=
  { id := "fresh0", x := 10, y := 10, width := 160, height := 52,
    text := "New Node", connections := ∅ }

/-- A metadata entry created at time T0. -/
def metaOld : MapMeta := ⟨some "Old", some "T0", some "T0"⟩

/-- An app state whose index already holds an entry for map `m` with
`created = T0`, while the in-memory `current_map_meta` is unset (as
after `open_map_dialog`, which sets `current_map_id` but never
`current_map_meta`). -/
def stC7 : AppState :=
  { loggedIn := true, currentMapId := some "m", currentMapMeta := none,
    store := { bodies := [("m", ⟨[], []⟩)], index := [("m", metaOld)] } }

/-- A one-map store. -/
def storeW : UserStore := ⟨[("m", ⟨[], []⟩)], [("m", metaOld)]⟩

/-! ## Lemmas: key-indexed list lookup -/

section KeyLemmas

variable {α : Type}

lemma find?_key_eq_none_iff (key : α → String) (l : List α) (k : String) :
    (l.find? (fun x => key x = k) = none) ↔ ∀ x ∈ l, key x ≠ k := by
  rw [List.find?_eq_none]
  simp

lemma find?_key_map (key : α → String) (f : α → α) (hf : ∀ x, key (f x) = key x)
    (l : List α) (k : String) :
    (l.map f).find? (fun x => key x = k) = (l.find? (fun x => key x = k)).map f := by
  induction l with
  | nil => rfl
  | cons m rest ih =>
    by_cases h : key m = k
    · simp [List.find?, hf, h]
    · simp [List.find?, hf, h, ih]

lemma find?_key_filter_ne (key : α → String) (l : List α) (k : String) :
    (l.filter (fun x => key x ≠ k)).find? (fun x => key x = k) = none := by
  rw [find?_key_eq_none_iff]
  intro x hx
  simpa using (List.mem_filter.mp hx).2

lemma find?_key_of_mem_nodup (key : α → String) (l : List α)
    (h : (l.map key).Nodup) (x : α) (hx : x ∈ l) :
    l.find? (fun y => key y = key x) = some x := by
  induction l with
  | nil => cases hx
  | cons m rest ih =>
    rcases List.mem_cons.mp hx with rfl | hx'
    · simp [List.find?]
    · have hne : key m ≠ key x := by
        intro he
        exact (List.nodup_cons.mp h).1 (he ▸ List.mem_map_of_mem key hx')
      simp only [List.map_cons] at h
      simp [List.find?, hne, ih (List.nodup_cons.mp h).2 hx']

lemma find?_key_mem_of_some (key : α → String) (l : List α) (k : String) (x : α)
    (h : l.find? (fun y => key y = k) = some x) : x ∈ l ∧ key x = k := by
  refine ⟨List.mem_of_find?_eq_some h, ?_⟩
  have := List.find?_some h
  simpa using this

lemma find?_key_filter_other (key : α → String) (l : List α) (k j : String) (h : j ≠ k) :
    (l.filter (fun x => key x ≠ k)).find? (fun x => key x = j) =
      l.find? (fun x => key x = j) := by
  induction l with
  | nil => rfl
  | cons x rest ih =>
    by_cases hk : key x = k
    · have hxj : ¬ (key x = j) := by rw [hk]; exact fun e => h e.symm
      rw [List.filter_cons_of_neg (by simp [hk]), ih,
        List.find?_cons_of_neg _ (by simp [hxj])]
    · rw [List.filter_cons_of_pos (by simp [hk])]
      by_cases hj : key x = j
      · rw [List.find?_cons_of_pos _ (by simp [hj]),
          List.find?_cons_of_pos _ (by simp [hj])]
      · rw [List.find?_cons_of_neg _ (by simp [hj]),
          List.find?_cons_of_neg _ (by simp [hj]), ih]

lemma map_key_of_update {β : Type} (key : α → β) (l : List α) (f : α → α)
    (hf : ∀ x, key (f x) = key x) :
    (l.map f).map key = l.map key := by
  induction l with
  | nil => rfl
  | cons x rest ih => simp [hf, ih]

lemma find?_key_isSome_of_mem (key : α → String) (l : List α) (k : String)
    (h : ∃ x ∈ l, key x = k) : ∃ x, l.find? (fun y => key y = k) = some x ∧ key x = k := by
  induction l with
  | nil => rcases h with ⟨x, hx, _⟩; cases hx
  | cons m rest ih =>
    by_cases hm : key m = k
    · exact ⟨m, by simp [List.find?, hm], hm⟩
    · rcases h with ⟨x, hx, hk⟩
      rcases List.mem_cons.mp hx with rfl | hx'
      · exact absurd hk hm
      · rcases ih ⟨x, hx', hk⟩ with ⟨y, hy, hky⟩
        exact ⟨y, by simp [List.find?, hm, hy], hky⟩

end KeyLemmas

/-! ## Lemmas: dict operations -/

section DictLemmas

variable {α : Type}

lemma dget_derase_self (m : List (String × α)) (k : String) :
    dget (derase m k) k = none := by
  induction m with
  | nil => rfl
  | cons p rest ih =>
    by_cases h : p.1 = k
    · simpa [derase, h] using ih
    · simpa [derase, dget, h] using ih

lemma dget_derase_ne (m : List (String × α)) (k j : String) (h : j ≠ k) :
    dget (derase m k) j = dget m j := by
  induction m with
  | nil => rfl
  | cons p rest ih =>
    by_cases hp : p.1 = k
    · have hpj : p.1 ≠ j := by rw [hp]; exact fun e => h e.symm
      rw [show derase (p :: rest) k = derase rest k by simp [derase, hp]]
      rw [ih]
      simp [dget, hpj]
    · rw [show derase (p :: rest) k = p :: derase rest k by simp [derase, hp]]
      by_cases hj : p.1 = j
      · simp [dget, hj]
      · simp [dget, hj, ih]

lemma dget_dinsert_self (m : List (String × α)) (k : String) (v : α) :
    dget (dinsert m k v) k = some v := by
  induction m with
  | nil => simp [dinsert, dget]
  | cons p rest ih =>
    by_cases h : p.1 = k
    · simp [dinsert, dget, h]
    · simp [dinsert, dget, h, ih]

lemma dget_some_of_mem (m : List (String × α)) (p : String × α) (hp : p ∈ m) :
    ∃ v, dget m p.1 = some v := by
  induction m with
  | nil => cases hp
  | cons q rest ih =>
    by_cases h : q.1 = p.1
    · exact ⟨q.2, by simp [dget, h]⟩
    · rcases List.mem_cons.mp hp with rfl | hp'
      · exact absurd rfl h
      · rcases ih hp' with ⟨v, hv⟩
        exact ⟨v, by simp [dget, h, hv]⟩

lemma mem_insDesc (p q : String × MapMeta) (l : List (String × MapMeta)) :
    p ∈ insDesc q l ↔ p = q ∨ p ∈ l := by
  induction l with
  | nil => simp [insDesc]
  | cons r rest ih =>
    by_cases h : (r.2.modified.getD "") ≤ (q.2.modified.getD "")
    · simp only [insDesc, if_pos h, List.mem_cons]
      try tauto
    · simp only [insDesc, if_neg h, List.mem_cons, ih]
      try tauto

lemma mem_listDiagrams (s : UserStore) (p : String × MapMeta) :
    p ∈ listDiagrams s ↔ p ∈ s.index := by
  show p ∈ s.index.foldr insDesc [] ↔ p ∈ s.index
  induction s.index with
  | nil => simp
  | cons q rest ih =>
    simp [List.foldr, mem_insDesc, ih]

end DictLemmas

/-! ## Lemmas: dict insertion keyed by element id -/

lemma mem_insertEdge (l : List EdgeV) (e x : EdgeV) (h : x ∈ insertEdge l e) :
    x ∈ l ∨ x = e := by
  induction l with
  | nil => simpa [insertEdge] using h
  | cons f rest ih =>
    by_cases hf : f.id = e.id
    · simp only [insertEdge, if_pos hf, List.mem_cons] at h
      rcases h with rfl | h
      · exact Or.inr rfl
      · exact Or.inl (List.mem_cons_of_mem f h)
    · simp only [insertEdge, if_neg hf, List.mem_cons] at h
      rcases h with rfl | h
      · exact Or.inl (List.mem_cons_self x rest)
      · rcases ih h with h' | h'
        · exact Or.inl (List.mem_cons_of_mem f h')
        · exact Or.inr h'

lemma insertEdge_ids_super (l : List EdgeV) (e : EdgeV) (a : String)
    (h : a ∈ l.map (fun f => f.id) ∨ a = e.id) :
    a ∈ (insertEdge l e).map (fun f => f.id) := by
  induction l with
  | nil =>
    rcases h with h | rfl
    · simp at h
    · simp [insertEdge]
  | cons f rest ih =>
    by_cases hf : f.id = e.id
    · simp only [insertEdge, if_pos hf, List.map_cons, List.mem_cons]
      rcases h with h | rfl
      · simp only [List.map_cons, List.mem_cons] at h
        rcases h with h | h
        · exact Or.inl (hf ▸ h)
        · exact Or.inr h
      · exact Or.inl rfl
    · simp only [insertEdge, if_neg hf, List.map_cons, List.mem_cons]
      rcases h with h | rfl
      · simp only [List.map_cons, List.mem_cons] at h
        rcases h with h | h
        · exact Or.inl h
        · exact Or.inr (ih (Or.inl h))
      · exact Or.inr (ih (Or.inr rfl))

lemma insertEdge_of_fresh (l : List EdgeV) (e : EdgeV)
    (h : e.id ∉ l.map (fun f => f.id)) : insertEdge l e = l ++ [e] := by
  induction l with
  | nil => rfl
  | cons f rest ih =>
    simp only [List.map_cons, List.mem_cons] at h
    push_neg at h
    have hne : ¬ f.id = e.id := fun he => h.1 he.symm
    simp [insertEdge, hne, ih h.2]

lemma find?_insertEdge_self (l : List EdgeV) (e : EdgeV) :
    (insertEdge l e).find? (fun f => f.id = e.id) = some e := by
  induction l with
  | nil => simp [insertEdge, List.find?]
  | cons f rest ih =>
    by_cases hf : f.id = e.id
    · simp [insertEdge, hf, List.find?]
    · simp [insertEdge, hf, List.find?, ih]

lemma insertNode_ids_super (l : List NodeV) (n : NodeV) (a : String)
    (h : a ∈ l.map (fun m => m.id) ∨ a = n.id) :
    a ∈ (insertNode l n).map (fun m => m.id) := by
  induction l with
  | nil =>
    rcases h with h | rfl
    · simp at h
    · simp [insertNode]
  | cons m rest ih =>
    by_cases hm : m.id = n.id
    · simp only [insertNode, if_pos hm, List.map_cons, List.mem_cons]
      rcases h with h | rfl
      · simp only [List.map_cons, List.mem_cons] at h
        rcases h with h | h
        · exact Or.inl (hm ▸ h)
        · exact Or.inr h
      · exact Or.inl rfl
    · simp only [insertNode, if_neg hm, List.map_cons, List.mem_cons]
      rcases h with h | rfl
      · simp only [List.map_cons, List.mem_cons] at h
        rcases h with h | h
        · exact Or.inl h
        · exact Or.inr (ih (Or.inl h))
      · exact Or.inr (ih (Or.inr rfl))

lemma insertNode_of_fresh (l : List NodeV) (n : NodeV)
    (h : n.id ∉ l.map (fun m => m.id)) : insertNode l n = l ++ [n] := by
  induction l with
  | nil => rfl
  | cons m rest ih =>
    simp only [List.map_cons, List.mem_cons] at h
    push_neg at h
    have hne : ¬ m.id = n.id := fun he => h.1 he.symm
    simp [insertNode, hne, ih h.2]

lemma foldl_insertNode_ids_super (l : List NodeV) (acc : List NodeV) (a : String)
    (h : a ∈ acc.map (fun m => m.id) ∨ a ∈ l.map (fun m => m.id)) :
    a ∈ (l.foldl insertNode acc).map (fun m => m.id) := by
  induction l generalizing acc with
  | nil =>
    rcases h with h | h
    · simpa using h
    · simp at h
  | cons n rest ih =>
    rcases h with h | h
    · exact ih (insertNode acc n) (Or.inl (insertNode_ids_super acc n a (Or.inl h)))
    · simp only [List.map_cons, List.mem_cons] at h
      rcases h with h | h
      · exact ih (insertNode acc n) (Or.inl (insertNode_ids_super acc n a (Or.inr h)))
      · exact ih (insertNode acc n) (Or.inr h)

lemma foldl_insertNode_of_nodup (l : List NodeV) (acc : List NodeV)
    (h : (acc.map (fun m => m.id) ++ l.map (fun m => m.id)).Nodup) :
    l.foldl insertNode acc = acc ++ l := by
  induction l generalizing acc with
  | nil => simp
  | cons n rest ih =>
    have hfresh : n.id ∉ acc.map (fun m => m.id) := by
      intro hmem
      have := (List.nodup_append.mp h).2.2
      exact this hmem (by simp)
    have step : insertNode acc n = acc ++ [n] := insertNode_of_fresh acc n hfresh
    have h' : ((acc ++ [n]).map (fun m => m.id) ++ rest.map (fun m => m.id)).Nodup := by
      simp only [List.map_append, List.map_cons, List.map_nil] at h ⊢
      simpa [List.append_assoc] using h
    calc (n :: rest).foldl insertNode acc = rest.foldl insertNode (insertNode acc n) := rfl
      _ = (acc ++ [n]) ++ rest := by rw [step]; exact ih (acc ++ [n]) h'
      _ = acc ++ n :: rest := by simp

/-! ## Lemmas: edge deletion and the cascade fold -/

lemma delete_edge_edges_sub (d : Diagram) (k : String) :
    ∀ f ∈ (delete_edge d k).edges, f ∈ d.edges ∧ f.id ≠ k := by
  intro f hf
  cases he : getEdge d k with
  | none =>
    rw [delete_edge, he] at hf
    have hall := (find?_key_eq_none_iff (fun e : EdgeV => e.id) d.edges k).mp he
    exact ⟨hf, hall f hf⟩
  | some e =>
    rw [delete_edge, he] at hf
    simp only [List.mem_filter] at hf
    exact ⟨hf.1, by simpa using hf.2⟩

lemma delete_edge_nodeIds (d : Diagram) (k : String) :
    nodeIds (delete_edge d k) = nodeIds d := by
  cases he : getEdge d k with
  | none => rw [delete_edge, he]
  | some e =>
    rw [delete_edge, he]
    exact map_key_of_update (fun n : NodeV => n.id) d.nodes _ (by
      intro n
      by_cases hc : n.id = e.a ∨ n.id = e.b <;> simp [hc])

lemma getNode_delete_edge (d : Diagram) (k i : String) (e : EdgeV)
    (he : getEdge d k = some e) :
    getNode (delete_edge d k) i =
      (getNode d i).map (fun n =>
        if n.id = e.a ∨ n.id = e.b then { n with connections := n.connections.erase k } else n) := by
  rw [delete_edge, he]
  exact find?_key_map (fun n : NodeV => n.id) _ (by
    intro n
    by_cases hc : n.id = e.a ∨ n.id = e.b <;> simp [hc]) d.nodes i

lemma connsOf_eq_some (d : Diagram) (i : String) (n : NodeV)
    (hn : getNode d i = some n) : connsOf d i = n.connections := by
  rw [connsOf, hn]

lemma connsOf_eq_empty (d : Diagram) (i : String)
    (hn : getNode d i = none) : connsOf d i = ∅ := by
  rw [connsOf, hn]

lemma connsOf_delete_edge_sub (d : Diagram) (k i : String) :
    connsOf (delete_edge d k) i ⊆ connsOf d i := by
  cases he : getEdge d k with
  | none =>
    rw [delete_edge, he]
  | some e =>
    cases hn : getNode d i with
    | none =>
      have h2 : getNode (delete_edge d k) i = none := by
        rw [getNode_delete_edge d k i e he, hn]; rfl
      rw [connsOf_eq_empty _ _ h2]
      exact Finset.empty_subset _
    | some n =>
      have h2 : getNode (delete_edge d k) i =
          some (if n.id = e.a ∨ n.id = e.b then
            { n with connections := n.connections.erase k } else n) := by
        rw [getNode_delete_edge d k i e he, hn]
        rfl
      rw [connsOf_eq_some _ i _ h2, connsOf_eq_some d i n hn]
      by_cases hc : n.id = e.a ∨ n.id = e.b
      · rw [if_pos hc]
        exact Finset.erase_subset k n.connections
      · rw [if_neg hc]

lemma getEdge_delete_edge_ne (d : Diagram) (k j : String) (h : j ≠ k) :
    getEdge (delete_edge d k) j = getEdge d j := by
  cases he : getEdge d k with
  | none => rw [delete_edge, he]
  | some e =>
    rw [delete_edge, he]
    exact find?_key_filter_other (fun f : EdgeV => f.id) d.edges k j h

lemma connsOf_delete_edge_found (d : Diagram) (k : String) (e : EdgeV)
    (he : getEdge d k = some e) (i : String) (hi : i = e.a ∨ i = e.b) :
    k ∉ connsOf (delete_edge d k) i := by
  cases hn : getNode d i with
  | none =>
    have h2 : getNode (delete_edge d k) i = none := by
      rw [getNode_delete_edge d k i e he, hn]; rfl
    rw [connsOf_eq_empty _ _ h2]
    exact Finset.not_mem_empty k
  | some n =>
    have hni : n.id = i := (find?_key_mem_of_some (fun m : NodeV => m.id) d.nodes i n hn).2
    have hc : n.id = e.a ∨ n.id = e.b := by
      rcases hi with hi | hi
      · exact Or.inl (hni.trans hi)
      · exact Or.inr (hni.trans hi)
    have h2 : getNode (delete_edge d k) i =
        some { n with connections := n.connections.erase k } := by
      rw [getNode_delete_edge d k i e he, hn]
      exact congrArg some (if_pos hc)
    rw [connsOf_eq_some _ i _ h2]
    exact Finset.not_mem_erase k n.connections

lemma foldl_delete_edge_edges (L : List String) (d : Diagram) :
    ∀ f ∈ (L.foldl delete_edge d).edges, f ∈ d.edges ∧ f.id ∉ L := by
  induction L generalizing d with
  | nil => intro f hf; exact ⟨hf, by simp⟩
  | cons k rest ih =>
    intro f hf
    have h1 := ih (delete_edge d k) f hf
    have h2 := delete_edge_edges_sub d k f h1.1
    refine ⟨h2.1, ?_⟩
    simp only [List.mem_cons]
    push_neg
    exact ⟨h2.2, h1.2⟩

lemma foldl_delete_edge_nodeIds (L : List String) (d : Diagram) :
    nodeIds (L.foldl delete_edge d) = nodeIds d := by
  induction L generalizing d with
  | nil => rfl
  | cons k rest ih => exact (ih (delete_edge d k)).trans (delete_edge_nodeIds d k)

lemma foldl_connsOf_sub (L : List String) (d : Diagram) (i : String) :
    connsOf (L.foldl delete_edge d) i ⊆ connsOf d i := by
  induction L generalizing d with
  | nil => exact fun x hx => hx
  | cons k rest ih =>
    exact fun x hx => connsOf_delete_edge_sub d k i (ih (delete_edge d k) hx)

lemma getEdge_foldl_delete_edge_ne (L : List String) (d : Diagram) (k : String)
    (h : k ∉ L) : getEdge (L.foldl delete_edge d) k = getEdge d k := by
  induction L generalizing d with
  | nil => rfl
  | cons j rest ih =>
    simp only [List.mem_cons] at h
    push_neg at h
    exact (ih (delete_edge d j) h.2).trans (getEdge_delete_edge_ne d j k h.1)

lemma foldl_delete_edge_kill_conn (L : List String) (hN : L.Nodup) (k : String)
    (hk : k ∈ L) (d : Diagram) (e : EdgeV) (he : getEdge d k = some e)
    (i : String) (hi : i = e.a ∨ i = e.b) :
    k ∉ connsOf (L.foldl delete_edge d) i := by
  obtain ⟨l1, l2, rfl⟩ := List.append_of_mem hk
  have hdisj := (List.nodup_append.mp hN).2.2
  have hk1 : k ∉ l1 := fun hmem => hdisj hmem (List.mem_cons_self k l2)
  rw [List.foldl_append]
  have he1 : getEdge (l1.foldl delete_edge d) k = some e := by
    rw [getEdge_foldl_delete_edge_ne l1 d k hk1]; exact he
  intro hmem
  exact connsOf_delete_edge_found (l1.foldl delete_edge d) k e he1 i hi
    (foldl_connsOf_sub l2 _ i hmem)

/-! ## Lemmas: node deletion -/

lemma mem_connList (s : Finset String) (a : String) : a ∈ connList s ↔ a ∈ s :=
  Finset.mem_sort _

lemma connList_nodup (s : Finset String) : (connList s).Nodup :=
  Finset.sort_nodup _ s

lemma getNode_delete_node_self (d : Diagram) (nid : String) (conns : Finset String) :
    getNode (delete_node d nid conns) nid = none := by
  show (((connList conns).foldl delete_edge d).nodes.filter
      (fun m => m.id ≠ nid)).find? (fun n => n.id = nid) = none
  exact find?_key_filter_ne (fun m : NodeV => m.id) _ nid

lemma delete_node_edges_not_ref (d : Diagram) (nid : String) (hwf : Wf d)
    (n : NodeV) (hn : getNode d nid = some n) :
    ∀ f ∈ (delete_node d nid n.connections).edges, f.a ≠ nid ∧ f.b ≠ nid := by
  intro f hf
  have hf' : f ∈ ((connList n.connections).foldl delete_edge d).edges := hf
  have h1 := foldl_delete_edge_edges (connList n.connections) d f hf'
  have hnmem : n ∈ d.nodes := (find?_key_mem_of_some (fun m : NodeV => m.id) d.nodes nid n hn).1
  have hnid : n.id = nid := (find?_key_mem_of_some (fun m : NodeV => m.id) d.nodes nid n hn).2
  constructor
  · intro hfa
    have : f.id ∈ n.connections :=
      hwf.2.2.2.2.1 n hnmem f h1.1 (Or.inl (hfa.trans hnid.symm))
    exact h1.2 ((mem_connList n.connections f.id).mpr this)
  · intro hfb
    have : f.id ∈ n.connections :=
      hwf.2.2.2.2.1 n hnmem f h1.1 (Or.inr (hfb.trans hnid.symm))
    exact h1.2 ((mem_connList n.connections f.id).mpr this)

lemma delete_node_incident_killed (d : Diagram) (nid : String) (conns : Finset String) :
    ∀ eid ∈ conns, getEdge (delete_node d nid conns) eid = none := by
  intro eid hmem
  apply (find?_key_eq_none_iff (fun e : EdgeV => e.id)
    (delete_node d nid conns).edges eid).mpr
  intro f hf hid
  have hf' : f ∈ ((connList conns).foldl delete_edge d).edges := hf
  have h1 := foldl_delete_edge_edges (connList conns) d f hf'
  exact h1.2 (hid ▸ (mem_connList conns eid).mpr hmem)

lemma delete_node_conns_killed (d : Diagram) (nid : String) (conns : Finset String)
    (hwf : Wf d) :
    ∀ m ∈ (delete_node d nid conns).nodes, ∀ eid ∈ conns, eid ∉ m.connections := by
  intro m hm eid hmem hin
  have hm' : m ∈ ((connList conns).foldl delete_edge d).nodes.filter
      (fun x => x.id ≠ nid) := hm
  obtain ⟨hm1, _⟩ := List.mem_filter.mp hm'
  have hids : ((((connList conns).foldl delete_edge d).nodes).map
      (fun x => x.id)).Nodup := by
    have h := foldl_delete_edge_nodeIds (connList conns) d
    rw [nodeIds, nodeIds] at h
    rw [h]
    exact hwf.1
  have hfind := find?_key_of_mem_nodup (fun x : NodeV => x.id)
    ((connList conns).foldl delete_edge d).nodes hids m hm1
  have h1 : eid ∈ connsOf ((connList conns).foldl delete_edge d) m.id := by
    rw [connsOf_eq_some _ _ _ hfind]
    exact hin
  have h2 : eid ∈ connsOf d m.id := foldl_connsOf_sub (connList conns) d m.id h1
  cases hm0 : getNode d m.id with
  | none =>
    rw [connsOf_eq_empty _ _ hm0] at h2
    exact Finset.not_mem_empty _ h2
  | some m0 =>
    rw [connsOf_eq_some _ _ _ hm0] at h2
    have hm0mem : m0 ∈ d.nodes :=
      (find?_key_mem_of_some (fun x : NodeV => x.id) d.nodes m.id m0 hm0).1
    have hm0id : m0.id = m.id :=
      (find?_key_mem_of_some (fun x : NodeV => x.id) d.nodes m.id m0 hm0).2
    obtain ⟨e, he_mem, he_id, he_inc⟩ := hwf.2.2.2.2.2 m0 hm0mem eid h2
    have hge : getEdge d eid = some e := by
      have h : getEdge d e.id = some e :=
        find?_key_of_mem_nodup (fun x : EdgeV => x.id) d.edges hwf.2.1 e he_mem
      rw [he_id] at h
      exact h
    have hS : eid ∈ connList conns := (mem_connList conns eid).mpr hmem
    have hinc : m.id = e.a ∨ m.id = e.b := by
      rcases he_inc with h | h
      · exact Or.inl (hm0id ▸ h.symm)
      · exact Or.inr (hm0id ▸ h.symm)
    exact foldl_delete_edge_kill_conn (connList conns) (connList_nodup _)
      eid hS d e hge m.id hinc h1

lemma foldl_delete_edge_absent (L : List String) (d : Diagram)
    (h : ∀ eid ∈ L, getEdge d eid = none) : L.foldl delete_edge d = d := by
  induction L with
  | nil => rfl
  | cons k rest ih =>
    have hk : delete_edge d k = d := by
      rw [delete_edge, h k (List.mem_cons_self k rest)]
    rw [List.foldl_cons, hk]
    exact ih (fun eid he => h eid (List.mem_cons_of_mem k he))

lemma delete_node_noop (d : Diagram) (nid : String) (conns : Finset String)
    (hn : getNode d nid = none) (hc : ∀ eid ∈ conns, getEdge d eid = none) :
    delete_node d nid conns = d := by
  have h1 : (connList conns).foldl delete_edge d = d :=
    foldl_delete_edge_absent (connList conns) d
      (fun eid he => hc eid ((mem_connList conns eid).mp he))
  show Diagram.mk
      (((connList conns).foldl delete_edge d).nodes.filter (fun m => m.id ≠ nid))
      ((connList conns).foldl delete_edge d).edges = d
  rw [h1]
  have h2 : d.nodes.filter (fun m => m.id ≠ nid) = d.nodes := by
    apply List.filter_eq_self.mpr
    intro a ha
    have := (find?_key_eq_none_iff (fun m : NodeV => m.id) d.nodes nid).mp hn a ha
    simpa using this
  rw [h2]

/-! ## Lemmas: edge creation and the load path -/

lemma mem_nodeIds (d : Diagram) (a : String) :
    a ∈ nodeIds d ↔ ∃ n ∈ d.nodes, n.id = a := by
  rw [nodeIds]
  simp [List.mem_map]

lemma mem_edgeIds (d : Diagram) (a : String) :
    a ∈ edgeIds d ↔ ∃ e ∈ d.edges, e.id = a := by
  rw [edgeIds]
  simp [List.mem_map]

lemma addEdgeRaw_nodeIds (d : Diagram) (eid a b : String) :
    nodeIds (addEdgeRaw d eid a b) = nodeIds d :=
  map_key_of_update (fun n : NodeV => n.id) d.nodes _ (by
    intro n
    by_cases hc : n.id = a ∨ n.id = b <;> simp [hc])

lemma addEdgeRaw_nodesDoc (d : Diagram) (eid a b : String) :
    (addEdgeRaw d eid a b).nodes.map NodeV.toDoc = d.nodes.map NodeV.toDoc :=
  map_key_of_update NodeV.toDoc d.nodes _ (by
    intro n
    by_cases hc : n.id = a ∨ n.id = b <;> simp [hc, NodeV.toDoc])

lemma getEdge_addEdgeRaw_self (d : Diagram) (eid a b : String) :
    getEdge (addEdgeRaw d eid a b) eid = some ⟨eid, a, b⟩ :=
  find?_insertEdge_self d.edges ⟨eid, a, b⟩

lemma addEdgeRaw_conns (d : Diagram) (eid a b : String) :
    ∀ n ∈ (addEdgeRaw d eid a b).nodes, (n.id = a ∨ n.id = b) → eid ∈ n.connections := by
  intro n hn hcond
  rcases List.mem_map.mp hn with ⟨m, hm, heq⟩
  by_cases hc : m.id = a ∨ m.id = b
  · rw [← heq]
    simp only [if_pos hc]
    exact Finset.mem_insert_self eid m.connections
  · rw [← heq] at hcond
    simp only [if_neg hc] at hcond
    exact absurd hcond hc

lemma getEdge_addEdgeFC_self (d : Diagram) (eid s : String) (sc : Bool) (t : String) :
    getEdge (addEdgeFC d eid s sc t) eid = some ⟨eid, s, t⟩ :=
  find?_insertEdge_self d.edges ⟨eid, s, t⟩

lemma addEdgeFC_conns (d : Diagram) (eid s : String) (sc : Bool) (t : String) :
    ∀ n ∈ (addEdgeFC d eid s sc t).nodes,
      (n.id = t ∨ (sc = true ∧ n.id = s)) → eid ∈ n.connections := by
  intro n hn hcond
  rcases List.mem_map.mp hn with ⟨m, hm, heq⟩
  by_cases hc : m.id = t ∨ (sc = true ∧ m.id = s)
  · rw [← heq]
    simp only [if_pos hc]
    exact Finset.mem_insert_self eid m.connections
  · rw [← heq] at hcond
    simp only [if_neg hc] at hcond
    exact absurd hcond hc

lemma addEdgeFC_conns_target (d : Diagram) (eid s : String) (sc : Bool) (t : String) :
    ∀ n ∈ (addEdgeFC d eid s sc t).nodes, n.id = t → eid ∈ n.connections :=
  fun n hn hc => addEdgeFC_conns d eid s sc t n hn (Or.inl hc)

lemma addEdgeFC_conns_source (d : Diagram) (eid s t : String) :
    ∀ n ∈ (addEdgeFC d eid s true t).nodes, n.id = s → eid ∈ n.connections :=
  fun n hn hc => addEdgeFC_conns d eid s true t n hn (Or.inr ⟨rfl, hc⟩)

lemma present_of_nodeIds_eq (d d' : Diagram) (h : nodeIds d = nodeIds d') (a : String)
    (hp : ∃ n ∈ d.nodes, n.id = a) : ∃ n ∈ d'.nodes, n.id = a := by
  have hm : a ∈ nodeIds d := (mem_nodeIds d a).mpr hp
  rw [h] at hm
  exact (mem_nodeIds d' a).mp hm

lemma loadEdge_eq_skip (supply : Nat → String) (st : Diagram × Nat) (ed : DocEdge)
    (h : ed.a.bind (getNode st.1) = none ∨ ed.b.bind (getNode st.1) = none) :
    loadEdge supply st ed = st := by
  rw [loadEdge]
  rcases h with h | h
  · rw [h]
  · cases ha : ed.a.bind (getNode st.1) with
    | none => rfl
    | some na => rw [h]

lemma loadEdge_eq_create (supply : Nat → String) (st : Diagram × Nat) (ed : DocEdge)
    (na nb : NodeV)
    (ha : ed.a.bind (getNode st.1) = some na) (hb : ed.b.bind (getNode st.1) = some nb) :
    loadEdge supply st ed =
      (addEdgeRaw st.1 (freshId ed.id supply st.2).1 na.id nb.id,
        (freshId ed.id supply st.2).2) := by
  rw [loadEdge, ha, hb]

lemma loadEdge_nodeIds (supply : Nat → String) (st : Diagram × Nat) (ed : DocEdge) :
    nodeIds (loadEdge supply st ed).1 = nodeIds st.1 := by
  cases ha : ed.a.bind (getNode st.1) with
  | none => rw [loadEdge_eq_skip supply st ed (Or.inl ha)]
  | some na =>
    cases hb : ed.b.bind (getNode st.1) with
    | none => rw [loadEdge_eq_skip supply st ed (Or.inr hb)]
    | some nb =>
      rw [loadEdge_eq_create supply st ed na nb ha hb]
      exact addEdgeRaw_nodeIds st.1 _ na.id nb.id

lemma loadEdge_nodesDoc (supply : Nat → String) (st : Diagram × Nat) (ed : DocEdge) :
    (loadEdge supply st ed).1.nodes.map NodeV.toDoc = st.1.nodes.map NodeV.toDoc := by
  cases ha : ed.a.bind (getNode st.1) with
  | none => rw [loadEdge_eq_skip supply st ed (Or.inl ha)]
  | some na =>
    cases hb : ed.b.bind (getNode st.1) with
    | none => rw [loadEdge_eq_skip supply st ed (Or.inr hb)]
    | some nb =>
      rw [loadEdge_eq_create supply st ed na nb ha hb]
      exact addEdgeRaw_nodesDoc st.1 _ na.id nb.id

lemma loadEdge_endpoints (supply : Nat → String) (st : Diagram × Nat) (ed : DocEdge)
    (h0 : edgeEndpointsPresent st.1) : edgeEndpointsPresent (loadEdge supply st ed).1 := by
  cases ha : ed.a.bind (getNode st.1) with
  | none => rw [loadEdge_eq_skip supply st ed (Or.inl ha)]; exact h0
  | some na =>
    cases hb : ed.b.bind (getNode st.1) with
    | none => rw [loadEdge_eq_skip supply st ed (Or.inr hb)]; exact h0
    | some nb =>
      rw [loadEdge_eq_create supply st ed na nb ha hb]
      intro f hf
      have hids := (addEdgeRaw_nodeIds st.1 (freshId ed.id supply st.2).1 na.id nb.id).symm
      rcases mem_insertEdge st.1.edges ⟨(freshId ed.id supply st.2).1, na.id, nb.id⟩ f hf
        with hmem | heq
      · have hp := h0 f hmem
        exact ⟨present_of_nodeIds_eq st.1 _ hids f.a hp.1,
          present_of_nodeIds_eq st.1 _ hids f.b hp.2⟩
      · rcases Option.bind_eq_some.mp ha with ⟨a', _, hga⟩
        rcases Option.bind_eq_some.mp hb with ⟨b', _, hgb⟩
        have hna := (find?_key_mem_of_some (fun n : NodeV => n.id) st.1.nodes a' na hga).1
        have hnb := (find?_key_mem_of_some (fun n : NodeV => n.id) st.1.nodes b' nb hgb).1
        subst heq
        exact ⟨present_of_nodeIds_eq st.1 _ hids na.id ⟨na, hna, rfl⟩,
          present_of_nodeIds_eq st.1 _ hids nb.id ⟨nb, hnb, rfl⟩⟩

lemma loadEdge_edgeIds_super (supply : Nat → String) (st : Diagram × Nat) (ed : DocEdge)
    (a : String) (h : a ∈ edgeIds st.1) : a ∈ edgeIds (loadEdge supply st ed).1 := by
  cases ha : ed.a.bind (getNode st.1) with
  | none => rw [loadEdge_eq_skip supply st ed (Or.inl ha)]; exact h
  | some na =>
    cases hb : ed.b.bind (getNode st.1) with
    | none => rw [loadEdge_eq_skip supply st ed (Or.inr hb)]; exact h
    | some nb =>
      rw [loadEdge_eq_create supply st ed na nb ha hb]
      exact insertEdge_ids_super st.1.edges _ a (Or.inl h)

lemma foldl_loadEdge_nodeIds (supply : Nat → String) (eds : List DocEdge)
    (st : Diagram × Nat) :
    nodeIds (eds.foldl (loadEdge supply) st).1 = nodeIds st.1 := by
  induction eds generalizing st with
  | nil => rfl
  | cons ed rest ih => exact (ih (loadEdge supply st ed)).trans (loadEdge_nodeIds supply st ed)

lemma foldl_loadEdge_nodesDoc (supply : Nat → String) (eds : List DocEdge)
    (st : Diagram × Nat) :
    (eds.foldl (loadEdge supply) st).1.nodes.map NodeV.toDoc =
      st.1.nodes.map NodeV.toDoc := by
  induction eds generalizing st with
  | nil => rfl
  | cons ed rest ih =>
    exact (ih (loadEdge supply st ed)).trans (loadEdge_nodesDoc supply st ed)

lemma foldl_loadEdge_endpoints (supply : Nat → String) (eds : List DocEdge)
    (st : Diagram × Nat) (h0 : edgeEndpointsPresent st.1) :
    edgeEndpointsPresent (eds.foldl (loadEdge supply) st).1 := by
  induction eds generalizing st with
  | nil => exact h0
  | cons ed rest ih => exact ih (loadEdge supply st ed) (loadEdge_endpoints supply st ed h0)

lemma foldl_loadEdge_edgeIds_super (supply : Nat → String) (eds : List DocEdge)
    (st : Diagram × Nat) (a : String) (h : a ∈ edgeIds st.1) :
    a ∈ edgeIds (eds.foldl (loadEdge supply) st).1 := by
  induction eds generalizing st with
  | nil => exact h
  | cons ed rest ih =>
    exact ih (loadEdge supply st ed) (loadEdge_edgeIds_super supply st ed a h)

lemma load_from_endpoints (supply : Nat → String) (doc : Document) :
    edgeEndpointsPresent (load_from supply doc) := by
  show edgeEndpointsPresent (doc.edges.foldl (loadEdge supply) _).1
  apply foldl_loadEdge_endpoints
  intro f hf
  exact absurd hf (List.not_mem_nil f)

/-! ## Lemmas: node rebuilding -/

lemma loadNode_toDoc (supply : Nat → String) (k : Nat) (n : NodeV) (hne : n.id ≠ "") :
    loadNode supply k n.toDoc = (stripConns n, k) := by
  rw [loadNode, NodeV.toDoc]
  simp [freshId, hne, stripConns]

lemma loadNodes_toDoc (supply : Nat → String) (ns : List NodeV)
    (h : ∀ n ∈ ns, n.id ≠ "") :
    ∀ k, loadNodes supply k (ns.map NodeV.toDoc) = (ns.map stripConns, k) := by
  induction ns with
  | nil => intro k; rfl
  | cons n rest ih =>
    intro k
    have hn := h n (List.mem_cons_self n rest)
    have hrest : ∀ m ∈ rest, m.id ≠ "" := fun m hm => h m (List.mem_cons_of_mem n hm)
    simp only [List.map_cons, loadNodes, loadNode_toDoc supply k n hn, ih hrest k]

lemma loadNodes_length (supply : Nat → String) (nds : List DocNode) :
    ∀ k, (loadNodes supply k nds).1.length = nds.length := by
  induction nds with
  | nil => intro k; rfl
  | cons nd rest ih =>
    intro k
    simp only [loadNodes, List.length_cons]
    rw [ih]

lemma loadNodes_defaults (supply : Nat → String) (nds : List DocNode) :
    ∀ k, List.Forall₂ (fun (nd : DocNode) (n : NodeV) =>
      n.x = nd.x.getD 10 ∧ n.y = nd.y.getD 10 ∧ n.text = nd.text.getD "New Node" ∧
      n.width = nd.width.getD 160 ∧ n.height = nd.height.getD 52)
      nds (loadNodes supply k nds).1 := by
  induction nds with
  | nil => intro k; exact List.Forall₂.nil
  | cons nd rest ih =>
    intro k
    simp only [loadNodes]
    exact List.Forall₂.cons (by simp [loadNode]) (ih _)

lemma loadNodes_mem_id (supply : Nat → String) (nds : List DocNode) (nd : DocNode)
    (s : String) (hs : nd.id = some s) (hne : s ≠ "") :
    ∀ k, nd ∈ nds → ∃ n ∈ (loadNodes supply k nds).1, n.id = s := by
  induction nds with
  | nil => intro k h; cases h
  | cons nd0 rest ih =>
    intro k hmem
    rcases List.mem_cons.mp hmem with rfl | hmem'
    · refine ⟨(loadNode supply k nd).1, ?_, ?_⟩
      · simp only [loadNodes]
        exact List.mem_cons_self _ _
      · simp [loadNode, freshId, hs, hne]
    · rcases ih (loadNode supply k nd0).2 hmem' with ⟨n, hn, hid⟩
      refine ⟨n, ?_, hid⟩
      simp only [loadNodes]
      exact List.mem_cons_of_mem _ hn

/-! ## Lemmas: edge rebuilding, retention and the serialized case -/

lemma foldl_loadEdge_retained (supply : Nat → String) (eds : List DocEdge) (ed : DocEdge)
    (ea eb eid : String) (hea : ed.a = some ea) (heb : ed.b = some eb)
    (hid : ed.id = some eid) (hne : eid ≠ "") :
    ∀ st : Diagram × Nat, ed ∈ eds → ea ∈ nodeIds st.1 → eb ∈ nodeIds st.1 →
      eid ∈ edgeIds (eds.foldl (loadEdge supply) st).1 := by
  induction eds with
  | nil => intro st h; cases h
  | cons ed0 rest ih =>
    intro st hmem hpa hpb
    rcases List.mem_cons.mp hmem with rfl | hmem'
    · obtain ⟨na, hna_found, hna_id⟩ := find?_key_isSome_of_mem (fun n : NodeV => n.id)
        st.1.nodes ea ((mem_nodeIds st.1 ea).mp hpa)
      obtain ⟨nb, hnb_found, hnb_id⟩ := find?_key_isSome_of_mem (fun n : NodeV => n.id)
        st.1.nodes eb ((mem_nodeIds st.1 eb).mp hpb)
      have ha : ed.a.bind (getNode st.1) = some na := by rw [hea]; exact hna_found
      have hb : ed.b.bind (getNode st.1) = some nb := by rw [heb]; exact hnb_found
      have hfid : (freshId ed.id supply st.2).1 = eid := by
        rw [hid]
        simp [freshId, hne]
      rw [List.foldl_cons, loadEdge_eq_create supply st ed na nb ha hb]
      apply foldl_loadEdge_edgeIds_super
      show eid ∈ (insertEdge st.1.edges
        ⟨(freshId ed.id supply st.2).1, na.id, nb.id⟩).map (fun f => f.id)
      exact insertEdge_ids_super st.1.edges _ eid (Or.inr hfid.symm)
    · exact ih (loadEdge supply st ed0) hmem'
        (by rw [loadEdge_nodeIds]; exact hpa)
        (by rw [loadEdge_nodeIds]; exact hpb)

lemma foldl_loadEdge_of_serialized (supply : Nat → String) (es : List EdgeV) :
    ∀ st : Diagram × Nat,
      (∀ e ∈ es, e.a ∈ nodeIds st.1 ∧ e.b ∈ nodeIds st.1) →
      (∀ e ∈ es, e.id ≠ "") →
      (∀ e ∈ es, e.id ∉ edgeIds st.1) →
      (es.map (fun e => e.id)).Nodup →
      ((es.map EdgeV.toDoc).foldl (loadEdge supply) st).1.edges = st.1.edges ++ es := by
  induction es with
  | nil => intro st _ _ _ _; simp
  | cons e rest ih =>
    intro st hend hne hfresh hnodup
    have hmeme := List.mem_cons_self e rest
    obtain ⟨na, hna_found, hna_id⟩ := find?_key_isSome_of_mem (fun n : NodeV => n.id)
      st.1.nodes e.a ((mem_nodeIds st.1 e.a).mp (hend e hmeme).1)
    obtain ⟨nb, hnb_found, hnb_id⟩ := find?_key_isSome_of_mem (fun n : NodeV => n.id)
      st.1.nodes e.b ((mem_nodeIds st.1 e.b).mp (hend e hmeme).2)
    have ha : (EdgeV.toDoc e).a.bind (getNode st.1) = some na := hna_found
    have hb : (EdgeV.toDoc e).b.bind (getNode st.1) = some nb := hnb_found
    have hfid1 : (freshId (EdgeV.toDoc e).id supply st.2).1 = e.id := by
      show (freshId (some e.id) supply st.2).1 = e.id
      simp [freshId, hne e hmeme]
    have hfid2 : (freshId (EdgeV.toDoc e).id supply st.2).2 = st.2 := by
      show (freshId (some e.id) supply st.2).2 = st.2
      simp [freshId, hne e hmeme]
    have hstep2 : loadEdge supply st e.toDoc = (addEdgeRaw st.1 e.id na.id nb.id, st.2) := by
      rw [loadEdge_eq_create supply st e.toDoc na nb ha hb, hfid1, hfid2]
    have hedges : (addEdgeRaw st.1 e.id na.id nb.id).edges = st.1.edges ++ [e] := by
      show insertEdge st.1.edges ⟨e.id, na.id, nb.id⟩ = st.1.edges ++ [e]
      have hee : (⟨e.id, na.id, nb.id⟩ : EdgeV) = e := by rw [hna_id, hnb_id]
      rw [hee]
      exact insertEdge_of_fresh st.1.edges e (hfresh e hmeme)
    have hlist : edgeIds (addEdgeRaw st.1 e.id na.id nb.id) = edgeIds st.1 ++ [e.id] := by
      show (addEdgeRaw st.1 e.id na.id nb.id).edges.map (fun f => f.id) =
        st.1.edges.map (fun f => f.id) ++ [e.id]
      rw [hedges]
      simp
    have hnd : (∀ x ∈ rest, ¬ x.id = e.id) ∧ (rest.map (fun e => e.id)).Nodup := by
      simpa using hnodup
    have hend' : ∀ f ∈ rest, f.a ∈ nodeIds (addEdgeRaw st.1 e.id na.id nb.id, st.2).1 ∧
        f.b ∈ nodeIds (addEdgeRaw st.1 e.id na.id nb.id, st.2).1 := by
      intro f hf
      have h1 : nodeIds (addEdgeRaw st.1 e.id na.id nb.id) = nodeIds st.1 :=
        addEdgeRaw_nodeIds st.1 e.id na.id nb.id
      have h2 := hend f (List.mem_cons_of_mem e hf)
      exact ⟨by show f.a ∈ nodeIds (addEdgeRaw st.1 e.id na.id nb.id); rw [h1]; exact h2.1,
        by show f.b ∈ nodeIds (addEdgeRaw st.1 e.id na.id nb.id); rw [h1]; exact h2.2⟩
    have hfresh' : ∀ f ∈ rest, f.id ∉ edgeIds (addEdgeRaw st.1 e.id na.id nb.id, st.2).1 := by
      intro f hf hin
      have hin' : f.id ∈ edgeIds (addEdgeRaw st.1 e.id na.id nb.id) := hin
      rw [hlist] at hin'
      rcases List.mem_append.mp hin' with h | h
      · exact hfresh f (List.mem_cons_of_mem e hf) h
      · have : f.id = e.id := by simpa using h
        exact hnd.1 f hf this
    have hmain := ih (addEdgeRaw st.1 e.id na.id nb.id, st.2) hend'
      (fun f hf => hne f (List.mem_cons_of_mem e hf)) hfresh' hnd.2
    calc (((e :: rest).map EdgeV.toDoc).foldl (loadEdge supply) st).1.edges
        = ((rest.map EdgeV.toDoc).foldl (loadEdge supply)
            (loadEdge supply st e.toDoc)).1.edges := rfl
      _ = ((rest.map EdgeV.toDoc).foldl (loadEdge supply)
            (addEdgeRaw st.1 e.id na.id nb.id, st.2)).1.edges := by rw [hstep2]
      _ = (addEdgeRaw st.1 e.id na.id nb.id, st.2).1.edges ++ rest := hmain
      _ = (st.1.edges ++ [e]) ++ rest := by
            show (addEdgeRaw st.1 e.id na.id nb.id).edges ++ rest = (st.1.edges ++ [e]) ++ rest
            rw [hedges]
      _ = st.1.edges ++ e :: rest := by simp

/-! ## Claim theorems -/

/-- C1, counterexample: the guard of `finish_connection` is
`target and target != selected_item` — object identity on an
unvalidated selection — so the claimed failure condition is wrong in
both directions. With a stale selection (reachable:
`clear()`/`load_from` never reset `selected_item`): (i) a selection
whose id A is absent from the node map still creates an edge, with a
dangling `a` endpoint; (ii) a stale selection whose id equals the
clicked node's id is a *different object*, so `aId == bId` does not
fail either — an edge with equal endpoint ids is created. -/
theorem C1_counterexample :
    (getNode dB "A" = none ∧
      (finish_connection dB "A" false "B" "e1").2 = some "e1" ∧
      (finish_connection dB "A" false "B" "e1").1.edges = [⟨"e1", "A", "B"⟩]) ∧
    ((finish_connection dAB "A" false "A" "e1").2 = some "e1" ∧
      (finish_connection dAB "A" false "A" "e1").1.edges = [⟨"e1", "A", "A"⟩]) := by
  decide

/-- C1 (amended): edge creation fails — leaving the diagram unchanged
— exactly when the clicked target resolves to no node, or the target
is the very selected object (same id AND the selection is the node
the dict currently stores under that id); for a current selection
with both ids present this is exactly `aId = bId`. A stale selection
is not rejected even when its id is absent or equals the target's. On
success the new edge is stored under its id; the target node's
`connections` set always receives the edge id, the source node's only
when the selection is current (a stale object's set is not part of
the diagram). -/
theorem C1_edge_creation (d : Diagram) (s : String) (sc : Bool) (t eid : String) :
    ((finish_connection d s sc t eid).2 = none ↔
      (getNode d t = none ∨ (t = s ∧ sc = true))) ∧
    ((finish_connection d s sc t eid).2 = none →
      (finish_connection d s sc t eid).1 = d) ∧
    ((finish_connection d s sc t eid).2 = some eid →
      getEdge (finish_connection d s sc t eid).1 eid = some ⟨eid, s, t⟩ ∧
      (∀ n ∈ (finish_connection d s sc t eid).1.nodes,
        n.id = t → eid ∈ n.connections) ∧
      (sc = true → ∀ n ∈ (finish_connection d s sc t eid).1.nodes,
        n.id = s → eid ∈ n.connections)) := by
  cases ht : getNode d t with
  | none =>
    have hfc : finish_connection d s sc t eid = (d, none) := by
      rw [finish_connection, ht]
    rw [hfc]
    refine ⟨by simp [ht], fun _ => rfl, fun h => absurd h (by simp)⟩
  | some n =>
    by_cases hts : t = s ∧ sc = true
    · have hfc : finish_connection d s sc t eid = (d, none) := by
        rw [finish_connection, ht, if_pos hts]
      rw [hfc]
      refine ⟨by simp [ht, hts.1, hts.2], fun _ => rfl, fun h => absurd h (by simp)⟩
    · have hfc : finish_connection d s sc t eid =
          (addEdgeFC d eid s sc t, some eid) := by
        rw [finish_connection, ht, if_neg hts]
      rw [hfc]
      refine ⟨by simp [ht, hts], by simp, fun _ => ?_⟩
      refine ⟨getEdge_addEdgeFC_self d eid s sc t, addEdgeFC_conns_target d eid s sc t, ?_⟩
      intro hsc
      subst hsc
      exact addEdgeFC_conns_source d eid s t

/-- C1, witness: with A and B present and a current selection,
connecting A to itself leaves the diagram unchanged, and connecting A
to B stores edge (A, B). -/
theorem C1_edge_creation_witness :
    (finish_connection dAB "A" true "A" "e1").1 = dAB ∧
    getEdge (finish_connection dAB "A" true "B" "e1").1 "e1" = some ⟨"e1", "A", "B"⟩ :=
  ⟨(C1_edge_creation dAB "A" true "A" "e1").2.1 (by decide),
   ((C1_edge_creation dAB "A" true "B" "e1").2.2 (by decide)).1⟩

/-- C2: in connect mode, activating on a target node distinct from
the source (the selection present when connecting started — untouched
by the click, since the provisional line under the pointer is the
canvas's current item and so the node's own item bindings do not
fire) creates exactly one edge (source, target) via the graph model,
discards the provisional line, and leaves connect mode (back to
Idle). With a fresh edge id, the edge dict grows by exactly the new
(source, target) edge. -/
theorem C2_connect_creates_edge (c : Canvas) (s t eid : String)
    (hs : c.selected = some s) (hst : t ≠ s) (hfresh : eid ∉ edgeIds c.d) :
    (click_node_while_connecting c t eid).d.edges = c.d.edges ++ [⟨eid, s, t⟩] ∧
    getEdge (click_node_while_connecting c t eid).d eid = some ⟨eid, s, t⟩ ∧
    (click_node_while_connecting c t eid).selected = c.selected ∧
    (click_node_while_connecting c t eid).tempLine = false ∧
    (click_node_while_connecting c t eid).connecting = false := by
  have hshape : click_node_while_connecting c t eid =
      { c with
          d := addEdgeFC c.d eid s c.selectedCurrent t
          tempLine := false
          connecting := false } := by
    have h1 : click_node_while_connecting c t eid =
        finish_connection_ev c (some t) eid := rfl
    rw [h1, finish_connection_ev.eq_def, hs]
    exact if_neg (fun h => hst h.1)
  refine ⟨?_, ?_, ?_, ?_, ?_⟩
  · rw [hshape]
    show insertEdge c.d.edges ⟨eid, s, t⟩ = c.d.edges ++ [⟨eid, s, t⟩]
    exact insertEdge_of_fresh c.d.edges ⟨eid, s, t⟩ hfresh
  · rw [hshape]
    exact getEdge_addEdgeFC_self c.d eid s c.selectedCurrent t
  · rw [hshape]
  · rw [hshape]
  · rw [hshape]

/-- C2, witness: connecting from A on the two-node canvas and
activating on B creates exactly the edge (A, B), and connect mode
ends. -/
theorem C2_connect_creates_edge_witness :
    (click_node_while_connecting canvasAB "B" "e1").d.edges =
      dAB.edges ++ [⟨"e1", "A", "B"⟩] ∧
    (click_node_while_connecting canvasAB "B" "e1").connecting = false :=
  ⟨(C2_connect_creates_edge canvasAB "A" "B" "e1" (by decide) (by decide) (by decide)).1,
   (C2_connect_creates_edge canvasAB "A" "B" "e1"
     (by decide) (by decide) (by decide)).2.2.2.2⟩

/-- C3, counterexample: `delete_node` receives `self.selected_item`, a
node OBJECT, cascades over that object's `connections` but removes the
dict entry by id. With a stale selection under id A whose set is empty
(reachable: save a map with edge A–B, open it, delete B — which clears
A's set — click A, re-open the map without saving, then Edit → Delete
Selected Node), the code cascades nothing, deletes the freshly loaded
node A, and leaves the loaded edge e1 still referencing the removed id
A — refuting "afterwards no edge in the diagram references n". -/
theorem C3_counterexample :
    getNode (delete_node dABe "A" ∅) "A" = none ∧
    (delete_node dABe "A" ∅).edges = [⟨"e1", "A", "B"⟩] := by
  have h0 : connList (∅ : Finset String) = [] := by
    simp [connList]
  have h1 : delete_node dABe "A" ∅ =
      { nodes := dABe.nodes.filter (fun m => m.id ≠ "A"), edges := dABe.edges } := by
    show Diagram.mk
        (((connList (∅ : Finset String)).foldl delete_edge dABe).nodes.filter
          (fun m => m.id ≠ "A"))
        ((connList (∅ : Finset String)).foldl delete_edge dABe).edges = _
    rw [h0]
    rfl
  rw [h1]
  constructor
  · exact find?_key_filter_ne (fun m : NodeV => m.id) dABe.nodes "A"
  · decide

/-- C3 (amended): when `delete_node` is invoked with the node the
diagram currently stores under `nid` (the non-stale case — id and
`connections` taken from that node), it removes the node, removes
every edge id in its `connections` from the edge dict, leaves no edge
referencing the node, and erases those ids from every surviving
node's `connections` set; invoked for an id with no node and a
`connections` set holding no stored edge id, it is a no-op. A stale
selection (same id, outdated `connections`) breaks the cascade, as the
counterexample shows. -/
theorem C3_delete_node_cascade (d : Diagram) (nid : String) (hwf : Wf d) :
    (∀ n, getNode d nid = some n →
      getNode (delete_node d nid n.connections) nid = none ∧
      (∀ f ∈ (delete_node d nid n.connections).edges, f.a ≠ nid ∧ f.b ≠ nid) ∧
      (∀ eid ∈ n.connections, getEdge (delete_node d nid n.connections) eid = none) ∧
      (∀ m ∈ (delete_node d nid n.connections).nodes,
        ∀ eid ∈ n.connections, eid ∉ m.connections)) ∧
    (∀ conns : Finset String, getNode d nid = none →
      (∀ eid ∈ conns, getEdge d eid = none) → delete_node d nid conns = d) :=
  ⟨fun n hn =>
    ⟨getNode_delete_node_self d nid n.connections,
     delete_node_edges_not_ref d nid hwf n hn,
     delete_node_incident_killed d nid n.connections,
     delete_node_conns_killed d nid n.connections hwf⟩,
   fun conns hn hc => delete_node_noop d nid conns hn hc⟩

/-- C3, witness: deleting A from the connected two-node diagram with
A's own stored node removes A and cascades edge e1; deleting an
absent id with an empty set is a no-op. -/
theorem C3_delete_node_cascade_witness :
    getNode (delete_node dABe "A" nodeAconn.connections) "A" = none ∧
    getEdge (delete_node dABe "A" nodeAconn.connections) "e1" = none ∧
    delete_node dAB "Z" ∅ = dAB :=
  ⟨((C3_delete_node_cascade dABe "A" (by decide)).1 nodeAconn (by decide)).1,
   ((C3_delete_node_cascade dABe "A" (by decide)).1 nodeAconn (by decide)).2.2.1
     "e1" (by decide),
   (C3_delete_node_cascade dAB "Z" (by decide)).2 ∅ (by decide) (by decide)⟩

/-- C4: serializing a well-formed diagram (unique non-empty ids,
endpoints present, `connections` consistent) whose edges have distinct
endpoints and loading the document back reconstructs an equal node set
(ids, positions, text, sizes) and an equal edge set (ids and endpoint
pairs) — stated as equality of the serialized forms, which carry
exactly those fields. -/
theorem C4_round_trip (d : Diagram) (supply : Nat → String) (hwf : Wf d)
    (_hdist : ∀ e ∈ d.edges, e.a ≠ e.b) :
    Diagram.serialize (load_from supply (Diagram.serialize d)) = Diagram.serialize d := by
  have hids : ∀ n ∈ d.nodes, n.id ≠ "" := hwf.2.2.1
  have hstrip_id : ∀ n : NodeV, (stripConns n).id = n.id := fun n => rfl
  have h1 : loadNodes supply 0 (d.nodes.map NodeV.toDoc) = (d.nodes.map stripConns, 0) :=
    loadNodes_toDoc supply d.nodes hids 0
  have hnodup : ((d.nodes.map stripConns).map (fun n => n.id)).Nodup := by
    rw [map_key_of_update (fun n : NodeV => n.id) d.nodes stripConns hstrip_id]
    exact hwf.1
  have h2 : (d.nodes.map stripConns).foldl insertNode [] = d.nodes.map stripConns := by
    have h := foldl_insertNode_of_nodup (d.nodes.map stripConns) [] (by simpa using hnodup)
    simpa using h
  set d0 : Diagram := { nodes := d.nodes.map stripConns, edges := [] } with hd0
  have hload : load_from supply (Diagram.serialize d) =
      ((d.edges.map EdgeV.toDoc).foldl (loadEdge supply) (d0, 0)).1 := by
    show ((d.edges.map EdgeV.toDoc).foldl (loadEdge supply)
        (Diagram.mk ((loadNodes supply 0 (d.nodes.map NodeV.toDoc)).1.foldl insertNode []) [],
          (loadNodes supply 0 (d.nodes.map NodeV.toDoc)).2)).1 =
      ((d.edges.map EdgeV.toDoc).foldl (loadEdge supply) (d0, 0)).1
    simp only [h1, h2]
  have hni : nodeIds d0 = nodeIds d := by
    show (d.nodes.map stripConns).map (fun n => n.id) = d.nodes.map (fun n => n.id)
    exact map_key_of_update (fun n : NodeV => n.id) d.nodes stripConns hstrip_id
  have hend : ∀ e ∈ d.edges, e.a ∈ nodeIds d0 ∧ e.b ∈ nodeIds d0 := by
    intro e he
    have h4 := (hwf.2.2.2.1 e he).2
    rw [hni]
    exact ⟨(mem_nodeIds d e.a).mpr h4.1, (mem_nodeIds d e.b).mpr h4.2⟩
  have hfresh : ∀ e ∈ d.edges, e.id ∉ edgeIds d0 := by
    intro e he hmem
    rw [hd0] at hmem
    simp [edgeIds] at hmem
  have hedges : ((d.edges.map EdgeV.toDoc).foldl (loadEdge supply) (d0, 0)).1.edges =
      d.edges := by
    have h := foldl_loadEdge_of_serialized supply d.edges (d0, 0) hend
      (fun e he => (hwf.2.2.2.1 e he).1) hfresh hwf.2.1
    rw [hd0] at h
    simpa using h
  have hnodesDoc : ((d.edges.map EdgeV.toDoc).foldl
      (loadEdge supply) (d0, 0)).1.nodes.map NodeV.toDoc = d.nodes.map NodeV.toDoc := by
    rw [foldl_loadEdge_nodesDoc]
    show (d.nodes.map stripConns).map NodeV.toDoc = d.nodes.map NodeV.toDoc
    exact map_key_of_update NodeV.toDoc d.nodes stripConns (fun n => rfl)
  rw [hload]
  simp only [Diagram.serialize, Document.mk.injEq]
  exact ⟨hnodesDoc, by rw [hedges]⟩

/-- C4, witness: the round trip at the concrete connected two-node
diagram. -/
theorem C4_round_trip_witness :
    Diagram.serialize (load_from supply0 (Diagram.serialize dABe)) =
      Diagram.serialize dABe :=
  C4_round_trip dABe supply0 (by decide) (by decide)

/-- C5, counterexample: deserializing a document whose edge entry is a
self-loop on an existing node accepts the edge — `load_from` checks
only that both endpoints resolve (`if a and b`), never `a != b` — so
the loaded diagram holds an edge with `a = b`, violating the claimed
invariant. -/
theorem C5_counterexample :
    (load_from supply0 docLoop).edges = [⟨"e1", "n1", "n1"⟩] ∧
    ¬ (∀ e ∈ (load_from supply0 docLoop).edges, e.a ≠ e.b) := by
  decide

/-- C5 (amended): an edge created through a CURRENT (non-stale)
selection never has equal endpoint ids (the object-identity guard
coincides with id inequality there), and every edge held after any
deserialization has both endpoint ids present among the diagram's
nodes; but neither half of the invariant holds in general — a
document self-loop on an existing node is accepted at load, and a
stale selection can interactively create an edge with equal endpoint
ids or a dangling source. -/
theorem C5_edge_invariant (d : Diagram) (s t eid : String)
    (supply : Nat → String) (doc : Document) :
    ((finish_connection d s true t eid).2.isSome → s ≠ t) ∧
    edgeEndpointsPresent (load_from supply doc) := by
  constructor
  · intro hs
    cases ht : getNode d t with
    | none =>
      rw [show finish_connection d s true t eid = (d, none) from by
        rw [finish_connection, ht]] at hs
      cases hs
    | some n =>
      by_cases hts : t = s
      · rw [show finish_connection d s true t eid = (d, none) from by
          rw [finish_connection, ht, if_pos ⟨hts, rfl⟩]] at hs
        cases hs
      · exact fun he => hts (he.symm)
  · exact load_from_endpoints supply doc

/-- C5, witness: a concrete edge created through a current selection
has distinct endpoints, and the self-loop diagram loaded from
`docLoop` still satisfies endpoint presence. -/
theorem C5_edge_invariant_witness :
    ("A" : String) ≠ "B" ∧ edgeEndpointsPresent (load_from supply0 docLoop) :=
  ⟨(C5_edge_invariant dAB "A" "B" "e1" supply0 docLoop).1 (by decide),
   (C5_edge_invariant dAB "A" "B" "e1" supply0 docLoop).2⟩

/-- C6, counterexample to the logging clause: loading `docDangling`
(one node, one edge whose `b` endpoint is missing) succeeds, drops the
edge and keeps the node — but emits no log message at all: `load_from`,
`Node.__init__` and `Edge.__init__` contain no log call, so the drop is
silent, contradicting "the drop is logged as a recoverable condition". -/
theorem C6_counterexample :
    (load_from supply0 docDangling).edges = [] ∧
    (load_from supply0 docDangling).nodes.map (fun n => n.id) = ["n1"] ∧
    load_from_msgs supply0 docDangling = [] := by
  decide

/-- C6 (amended, logging clause removed): loading any document
succeeds (the model function is total and no branch rejects), every
edge surviving the load has both endpoints resolvable among the loaded
nodes (so an edge naming a missing node is dropped), every node entry
with a non-empty given id contributes that id to the loaded node dict,
and every edge entry with a non-empty given id whose endpoints resolve
among the loaded nodes contributes its id to the loaded edge dict. -/
theorem C6_dangling_edges_dropped (supply : Nat → String) (doc : Document) :
    edgeEndpointsPresent (load_from supply doc) ∧
    (∀ nd ∈ doc.nodes, ∀ s, nd.id = some s → s ≠ "" →
      ∃ n ∈ (load_from supply doc).nodes, n.id = s) ∧
    (∀ ed ∈ doc.edges, ∀ ea eb eid, ed.a = some ea → ed.b = some eb →
      ed.id = some eid → eid ≠ "" →
      ea ∈ nodeIds (load_from supply doc) → eb ∈ nodeIds (load_from supply doc) →
      eid ∈ edgeIds (load_from supply doc)) := by
  have hrfl : load_from supply doc =
      (doc.edges.foldl (loadEdge supply)
        (Diagram.mk ((loadNodes supply 0 doc.nodes).1.foldl insertNode []) [],
          (loadNodes supply 0 doc.nodes).2)).1 := rfl
  refine ⟨load_from_endpoints supply doc, ?_, ?_⟩
  · intro nd hnd s hs hne
    obtain ⟨n, hn, hid⟩ := loadNodes_mem_id supply doc.nodes nd s hs hne 0 hnd
    have h1 : s ∈ ((loadNodes supply 0 doc.nodes).1.foldl insertNode []).map
        (fun m => m.id) :=
      foldl_insertNode_ids_super (loadNodes supply 0 doc.nodes).1 [] s
        (Or.inr (hid ▸ List.mem_map_of_mem (fun m => m.id) hn))
    have h2 : s ∈ nodeIds (load_from supply doc) := by
      rw [hrfl, foldl_loadEdge_nodeIds]
      exact h1
    exact (mem_nodeIds _ s).mp h2
  · intro ed hed ea eb eid hea heb hid hne hpa hpb
    rw [hrfl] at hpa hpb ⊢
    rw [foldl_loadEdge_nodeIds] at hpa hpb
    exact foldl_loadEdge_retained supply doc.edges ed ea eb eid hea heb hid hne
      _ hed hpa hpb

/-- C6, witness: applied to `docDangling` (endpoint presence after the
drop; the node retained) and to `docLoop` (an edge with resolvable
endpoints and a given id is retained). -/
theorem C6_dangling_edges_dropped_witness :
    edgeEndpointsPresent (load_from supply0 docDangling) ∧
    (∃ n ∈ (load_from supply0 docDangling).nodes, n.id = "n1") ∧
    "e1" ∈ edgeIds (load_from supply0 docLoop) :=
  ⟨(C6_dangling_edges_dropped supply0 docDangling).1,
   (C6_dangling_edges_dropped supply0 docDangling).2.1
     ⟨some "n1", some 10, some 10, some "New Node", some 160, some 52⟩
     (by decide) "n1" (by decide) (by decide),
   (C6_dangling_edges_dropped supply0 docLoop).2.2
     ⟨some "e1", some "n1", some "n1"⟩ (by decide) "n1" "n1" "e1"
     (by decide) (by decide) (by decide) (by decide) (by decide) (by decide)⟩

/-- The save tail always performs the body write then the index
write, stores the serialized body under the map id, and stores an
index entry stamped `modified = now` whose `created` comes from the
in-memory metadata when present, and is `now` otherwise. -/
lemma save_core_spec (st : AppState) (doc : Document) (now mid : String) :
    (save_core st doc now mid).2 = [WriteEv.body mid, WriteEv.index mid] ∧
    dget (save_core st doc now mid).1.store.bodies mid = some doc ∧
    ∃ m, dget (save_core st doc now mid).1.store.index mid = some m ∧
      m.modified = some now ∧
      m.created = some ((st.currentMapMeta.getD ⟨none, none, none⟩).created.getD now) := by
  have hidx : (save_core st doc now mid).1.store.index =
      dinsert st.store.index mid
        (if (st.currentMapMeta.getD ⟨none, none, none⟩).created = none
          then ⟨(st.currentMapMeta.getD ⟨none, none, none⟩).title, some now, some now⟩
          else ⟨(st.currentMapMeta.getD ⟨none, none, none⟩).title,
            (st.currentMapMeta.getD ⟨none, none, none⟩).created, some now⟩) := rfl
  refine ⟨rfl, ?_, ?_⟩
  · show dget (dinsert st.store.bodies mid doc) mid = some doc
    exact dget_dinsert_self st.store.bodies mid doc
  · by_cases hc : (st.currentMapMeta.getD ⟨none, none, none⟩).created = none
    · refine ⟨⟨(st.currentMapMeta.getD ⟨none, none, none⟩).title, some now, some now⟩,
        ?_, rfl, ?_⟩
      · rw [hidx, if_pos hc]
        exact dget_dinsert_self st.store.index mid _
      · rw [hc]
        rfl
    · obtain ⟨c, hcc⟩ := Option.ne_none_iff_exists'.mp hc
      refine ⟨⟨(st.currentMapMeta.getD ⟨none, none, none⟩).title,
        (st.currentMapMeta.getD ⟨none, none, none⟩).created, some now⟩, ?_, rfl, ?_⟩
      · rw [hidx, if_neg hc]
        exact dget_dinsert_self st.store.index mid _
      · rw [hcc]
        rfl

/-- C7, counterexample: the index entry for map `m` pre-exists with
`created = T0` (it is not new), yet saving while the in-memory
`current_map_meta` is unset (reachable: `open_map_dialog` sets
`current_map_id` but never `current_map_meta`) rewrites the entry with
`created = T1 = now` — `save_map` consults only `current_map_meta`,
never the index entry, so "sets `created` only when the entry is new"
fails. -/
theorem C7_counterexample :
    dget stC7.store.index "m" = some metaOld ∧
    (save_map stC7 ⟨[], []⟩ "T1" "f" none).2 = [WriteEv.body "m", WriteEv.index "m"] ∧
    dget (save_map stC7 ⟨[], []⟩ "T1" "f" none).1.store.index "m" =
      some ⟨none, some "T1", some "T1"⟩ := by
  decide

/-- C7 (amended): every save either aborts with no store write (not
logged in, or title prompt cancelled on first save) or writes the body
first and then the index entry, in that order; the stored entry has
`modified = now` on every successful save, and `created` equal to the
in-memory metadata's `created` when the session holds one, and to
`now` otherwise (first save, or a map opened without loading its
metadata) — the pre-existing index entry is never consulted. -/
theorem C7_save_order (st : AppState) (doc : Document) (now freshMid : String)
    (titlePrompt : Option String) :
    (save_map st doc now freshMid titlePrompt).2 = [] ∨
    ∃ mid, (save_map st doc now freshMid titlePrompt).2 =
        [WriteEv.body mid, WriteEv.index mid] ∧
      dget (save_map st doc now freshMid titlePrompt).1.store.bodies mid = some doc ∧
      ∃ m, dget (save_map st doc now freshMid titlePrompt).1.store.index mid = some m ∧
        m.modified = some now ∧ m.created = some (savedCreated st now) := by
  rw [save_map.eq_def]
  by_cases hl : st.loggedIn = false
  · rw [if_pos hl]
    exact Or.inl rfl
  · rw [if_neg hl]
    cases hid : st.currentMapId with
    | some mid =>
      right
      obtain ⟨htr, hbody, m, hm, hmod, hcr⟩ := save_core_spec st doc now mid
      refine ⟨mid, htr, hbody, m, hm, hmod, ?_⟩
      rw [hcr]
      cases hmm : st.currentMapMeta with
      | none => simp [savedCreated, hid, hmm]
      | some m0 => simp [savedCreated, hid, hmm]
    | none =>
      cases titlePrompt with
      | none => exact Or.inl rfl
      | some t =>
        right
        obtain ⟨htr, hbody, m, hm, hmod, hcr⟩ := save_core_spec
          { st with
              currentMapId := some freshMid
              currentMapMeta := some ⟨some t, some now, some now⟩ }
          doc now freshMid
        refine ⟨freshMid, htr, hbody, m, hm, hmod, ?_⟩
        rw [hcr]
        simp [savedCreated, hid]

/-- C8: deleting a stored diagram removes its body and its index
entry, the listing afterwards never contains its id, and deleting an
id with neither a body nor an index entry changes nothing. -/
theorem C8_delete_diagram (s : UserStore) (mid : String) :
    dget (delete_selected_map s mid).bodies mid = none ∧
    dget (delete_selected_map s mid).index mid = none ∧
    (∀ p ∈ listDiagrams (delete_selected_map s mid), p.1 ≠ mid) ∧
    (dget s.bodies mid = none → dget s.index mid = none →
      delete_selected_map s mid = s) := by
  have hbody : dget (delete_map_file s mid).bodies mid = none := by
    rw [delete_map_file]
    by_cases hb : (dget s.bodies mid).isSome
    · rw [if_pos hb]
      exact dget_derase_self s.bodies mid
    · rw [if_neg hb]
      exact Option.not_isSome_iff_eq_none.mp hb
  have hsbody : dget (delete_selected_map s mid).bodies mid = none := by
    rw [delete_selected_map]
    by_cases hi : (dget (delete_map_file s mid).index mid).isSome
    · rw [if_pos hi]
      exact hbody
    · rw [if_neg hi]
      exact hbody
  have hsidx : dget (delete_selected_map s mid).index mid = none := by
    rw [delete_selected_map]
    by_cases hi : (dget (delete_map_file s mid).index mid).isSome
    · rw [if_pos hi]
      exact dget_derase_self (delete_map_file s mid).index mid
    · rw [if_neg hi]
      exact Option.not_isSome_iff_eq_none.mp hi
  refine ⟨hsbody, hsidx, ?_, ?_⟩
  · intro p hp hpe
    have hmem := (mem_listDiagrams _ p).mp hp
    obtain ⟨v, hv⟩ := dget_some_of_mem _ p hmem
    rw [hpe, hsidx] at hv
    cases hv
  · intro hb hi
    have h1 : delete_map_file s mid = s := by
      rw [delete_map_file, if_neg (by simp [hb])]
    rw [delete_selected_map, h1, if_neg (by simp [hi])]

/-- C8, witness: deleting the stored map `m` empties both views, and
deleting an unknown id is a no-op. -/
theorem C8_delete_diagram_witness :
    dget (delete_selected_map storeW "m").bodies "m" = none ∧
    dget (delete_selected_map storeW "m").index "m" = none ∧
    delete_selected_map storeW "zzz" = storeW :=
  ⟨(C8_delete_diagram storeW "m").1, (C8_delete_diagram storeW "m").2.1,
   (C8_delete_diagram storeW "zzz").2.2.2 (by decide) (by decide)⟩

/-- C9: dragging a node changes only that node's position: the edge
dict is untouched (so the re-serialized edge entries, endpoint ids
included, are unchanged), every other node is unchanged, and the moved
node keeps its id, text, size and `connections` set. -/
theorem C9_move_node_frame (d : Diagram) (nid : String) (ex ey : Rat) :
    (on_drag d nid ex ey).edges = d.edges ∧
    (Diagram.serialize (on_drag d nid ex ey)).edges = (Diagram.serialize d).edges ∧
    (∀ k, k ≠ nid → getNode (on_drag d nid ex ey) k = getNode d k) ∧
    (getNode (on_drag d nid ex ey) nid).map
        (fun n => (n.id, n.text, n.width, n.height, n.connections)) =
      (getNode d nid).map (fun n => (n.id, n.text, n.width, n.height, n.connections)) := by
  have hmap : ∀ k, getNode (on_drag d nid ex ey) k = (getNode d k).map
      (fun n => if n.id = nid then
        { n with x := ex - n.width / 2, y := ey - n.height / 2 } else n) := by
    intro k
    exact find?_key_map (fun n : NodeV => n.id) _ (by
      intro n
      by_cases hc : n.id = nid <;> simp [hc]) d.nodes k
  refine ⟨rfl, rfl, ?_, ?_⟩
  · intro k hk
    rw [hmap k]
    cases hn : getNode d k with
    | none => rfl
    | some n =>
      have hni : n.id = k := (find?_key_mem_of_some (fun m : NodeV => m.id) d.nodes k n hn).2
      have : ¬ n.id = nid := by rw [hni]; exact hk
      simp [this]
  · rw [hmap nid]
    cases hn : getNode d nid with
    | none => rfl
    | some n =>
      by_cases hc : n.id = nid <;> simp [hc]

/-- C9, witness: moving A leaves the edge set and node B untouched. -/
theorem C9_move_node_frame_witness :
    (on_drag dABe "A" 300 200).edges = dABe.edges ∧
    getNode (on_drag dABe "A" 300 200) "B" = getNode dABe "B" :=
  ⟨(C9_move_node_frame dABe "A" 300 200).1,
   (C9_move_node_frame dABe "A" 300 200).2.2.1 "B" (by decide)⟩

/-- C10: rebuilding nodes never drops or rejects an entry — one node
is constructed per document entry (equal lengths), each constructed
node takes the defaults x = 10, y = 10, text = "New Node", width =
160, height = 52 for missing fields — and every constructed node's id
reaches the loaded diagram's node dict; only edge entries can be
skipped. -/
theorem C10_node_defaults (supply : Nat → String) (doc : Document) :
    (loadNodes supply 0 doc.nodes).1.length = doc.nodes.length ∧
    List.Forall₂ (fun (nd : DocNode) (n : NodeV) =>
      n.x = nd.x.getD 10 ∧ n.y = nd.y.getD 10 ∧ n.text = nd.text.getD "New Node" ∧
      n.width = nd.width.getD 160 ∧ n.height = nd.height.getD 52)
      doc.nodes (loadNodes supply 0 doc.nodes).1 ∧
    (∀ n ∈ (loadNodes supply 0 doc.nodes).1,
      ∃ m ∈ (load_from supply doc).nodes, m.id = n.id) := by
  have hrfl : load_from supply doc =
      (doc.edges.foldl (loadEdge supply)
        (Diagram.mk ((loadNodes supply 0 doc.nodes).1.foldl insertNode []) [],
          (loadNodes supply 0 doc.nodes).2)).1 := rfl
  refine ⟨loadNodes_length supply doc.nodes 0, loadNodes_defaults supply doc.nodes 0, ?_⟩
  intro n hn
  have h1 : n.id ∈ ((loadNodes supply 0 doc.nodes).1.foldl insertNode []).map
      (fun m => m.id) :=
    foldl_insertNode_ids_super (loadNodes supply 0 doc.nodes).1 [] n.id
      (Or.inr (List.mem_map_of_mem (fun m => m.id) hn))
  have h2 : n.id ∈ nodeIds (load_from supply doc) := by
    rw [hrfl, foldl_loadEdge_nodeIds]
    exact h1
  exact (mem_nodeIds _ n.id).mp h2

/-- C10, witness: a node entry with every field missing still yields a
node, with the documented defaults, and its id reaches the loaded
diagram. -/
theorem C10_node_defaults_witness :
    (loadNodes supply0 0 docDefaults.nodes).1.length = docDefaults.nodes.length ∧
    (∃ m ∈ (load_from supply0 docDefaults).nodes, m.id = nodeD0.id) :=
  ⟨(C10_node_defaults supply0 docDefaults).1,
   (C10_node_defaults supply0 docDefaults).2.2 nodeD0 (by decide)⟩

end MindMapr
